import Mathlib

/-!
Verification of the `tracarchiveviewerplugin` repository (file
`archiveviewer/zip.py`, class `ZipRenderer`).

The development shallowly embeds the plugin code:

* the two URL regular expressions of `ZipRenderer.match_request`
  (lines 135 and 143) are embedded as executable matchers whose
  backtracking search order mirrors Python `re.match` (leftmost match,
  greedy quantifiers with backtracking, `.` not matching a newline,
  `$` matching at the end of the string or just before a final newline);
* `process_request` is embedded as a total function over an explicit
  environment that abstracts the host framework (Trac) primitives, with
  Python exceptions (including `NameError`/`AttributeError` for local
  variables that can be read before assignment) made explicit in the
  result type;
* the small interface methods (`get_resource_realms`,
  `get_quality_ratio`, `get_link_resolvers`, `get_resource_url`,
  `resource_exists`) are embedded directly.
-/

namespace ArchiveViewer

/-! ## Basic string-matching helpers -/

/-- Match a literal character-list `p` at the front of `s`; return the rest. -/
def stripPre : List Char → List Char → Option (List Char)
  | [], s => some s
  | _, [] => none
  | p :: ps, c :: cs => if p = c then stripPre ps cs else none

/-- The literal `/zip` consumed by each repetition of the `(?:/zip)*` group. -/
def zipChars : List Char := ['/', 'z', 'i', 'p']

/-- The literal `zip` after the optional `raw-` group. -/
def zipWord : List Char := ['z', 'i', 'p']

/-- The literal `raw-zip` (greedy `(raw-)?` followed by `zip`). -/
def rawZipWord : List Char := ['r', 'a', 'w', '-', 'z', 'i', 'p']

/-- The literal `/attachment/` of the first pattern. -/
def attachChars : List Char :=
  ['/', 'a', 't', 't', 'a', 'c', 'h', 'm', 'e', 'n', 't', '/']

/-- The three alternatives of the `(export|browser|file)` group, in the
order the regex engine tries them. -/
def words2 : List (List Char) :=
  [['e', 'x', 'p', 'o', 'r', 't'],
   ['b', 'r', 'o', 'w', 's', 'e', 'r'],
   ['f', 'i', 'l', 'e']]

/-- Candidate lengths `[n, n-1, ..., 1]` for a greedy `+` quantifier whose
maximal munch has length `n`: the engine tries the longest first. -/
def revRange1 (n : Nat) : List Nat := (List.range n).reverse.map (· + 1)

/-- Candidate lengths `[n, n-1, ..., 0]` for a greedy `*` quantifier. -/
def revRange0 (n : Nat) : List Nat := (List.range (n + 1)).reverse

/-- Python `$` (without `re.MULTILINE`): the position is at the end of the
string or just before a final newline. -/
abbrev EndsOk (t : List Char) : Prop := t = [] ∨ t = ['\n']

/-- Remainders reachable by the greedy `(?:/zip)*` group, most repetitions
first (the engine's preference order); `fuel` bounds the recursion and is
sufficient as soon as it is at least the number of repetitions present. -/
def starZipAux : Nat → List Char → List (List Char)
  | 0, s => [s]
  | Nat.succ n, s =>
    match stripPre zipChars s with
    | some s2 => starZipAux n s2 ++ [s]
    | none => [s]

/-- All remainders the `(?:/zip)*` group can leave, greedy order. -/
def starZip (s : List Char) : List (List Char) := starZipAux s.length s

/-- `/(raw-)?zip`: leading slash, then greedy optional `raw-`, then `zip`.
The greedy choice is deterministic here: if `raw-zip` is a literal prefix
then retrying with the group absent would have to match `zip` against a
string starting with `r`, which fails. -/
def pfxMatch (s : List Char) : Option (Bool × List Char) :=
  match s with
  | '/' :: s1 =>
    match stripPre rawZipWord s1 with
    | some s2 => some (true, s2)
    | none =>
      match stripPre zipWord s1 with
      | some s2 => some (false, s2)
      | none => none
  | _ => none

/-! ## The tails of the two patterns

`atTail` embeds `(@.+)?$`, returning the revision capture without its
leading `@` (as `match_request` stores `rev[1:]`).  `bangTail` embeds
`(!/.+)?(@.+)?$` of the first pattern; `bang2Tail` embeds
`(!/[^@]+)?(@.+)?$` of the second; both return the inner-path capture
without its leading `!/` (re-attached when the argument dict is built).
In all of them the optional group is tried present first (greedy), with
the inner `+` going from the maximal munch downwards. -/

def atTail (s : List Char) : Option (Option (List Char)) :=
  (match s with
   | '@' :: s1 =>
     (revRange1 (s1.takeWhile (· != '\n')).length).findSome? (fun e =>
       if EndsOk (s1.drop e) then some (some (s1.take e)) else none)
   | _ => none)
  <|> (if EndsOk s then some none else none)

def bangTail (s : List Char) : Option (Option (List Char) × Option (List Char)) :=
  (match s with
   | '!' :: '/' :: s1 =>
     (revRange1 (s1.takeWhile (· != '\n')).length).findSome? (fun e =>
       (atTail (s1.drop e)).map (fun rv => (some (s1.take e), rv)))
   | _ => none)
  <|> (atTail s).map (fun rv => ((none : Option (List Char)), rv))

def bang2Tail (s : List Char) : Option (Option (List Char) × Option (List Char)) :=
  (match s with
   | '!' :: '/' :: s1 =>
     (revRange1 (s1.takeWhile (· != '@')).length).findSome? (fun e =>
       (atTail (s1.drop e)).map (fun rv => (some (s1.take e), rv)))
   | _ => none)
  <|> (atTail s).map (fun rv => ((none : Option (List Char)), rv))

/-- `([^/!]+)(!/.+)?(@.+)?$`: the archive group of the first pattern with
its tail; greedy on the archive length with full backtracking. -/
def arch1 (s2 : List Char) : Option (List Char × Option (List Char) × Option (List Char)) :=
  (revRange1 (s2.takeWhile (fun c => c != '/' && c != '!')).length).findSome? (fun n =>
    (bangTail (s2.drop n)).map (fun pr => (s2.take n, pr.1, pr.2)))

/-- Captures of the first pattern
`/(raw-)?zip(?:/zip)*/attachment/([^/]+)/([^!]*)/([^/!]+)(!/.+)?(@.+)?$`. -/
structure G1 where
  fmt : Bool
  realm : List Char
  rid : List Char
  archive : List Char
  inner : Option (List Char)
  rev : Option (List Char)
deriving Repr, DecidableEq

/-- `([^/]+)/([^!]*)/([^/!]+)(!/.+)?(@.+)?$`, the part of the first pattern
after the literal `/attachment/`.  The realm group `([^/]+)` followed by a
literal `/` is deterministic (no shorter munch can be followed by `/`);
the id group `([^!]*)` followed by `/` backtracks over every `/` inside
the maximal `!`-free munch, longest first. -/
def tail1 (u : List Char) : Option G1 :=
  match u.drop (u.takeWhile (· != '/')).length with
  | '/' :: s1 =>
    if u.takeWhile (· != '/') = [] then none else
    (revRange0 (s1.takeWhile (· != '!')).length).findSome? (fun j =>
      if s1.get? j = some '/' then
        (arch1 (s1.drop (j + 1))).map (fun t =>
          { fmt := false, realm := u.takeWhile (· != '/'), rid := s1.take j,
            archive := t.1, inner := t.2.1, rev := t.2.2 })
      else none)
  | _ => none

/-- The matcher for the first regex of `match_request` (line 135). -/
def pat1 (s : List Char) : Option G1 :=
  (pfxMatch s).bind (fun fs =>
    (starZip fs.2).findSome? (fun s3 =>
      (stripPre attachChars s3).bind (fun u =>
        (tail1 u).map (fun t => { t with fmt := fs.1 }))))

/-- Captures of the second pattern
`/(raw-)?zip(?:/zip)*/(export|browser|file)/([^!]+)(!/[^@]+)?(@.+)?$`. -/
structure G2 where
  fmt : Bool
  realm : List Char
  rid : List Char
  inner : Option (List Char)
  rev : Option (List Char)
deriving Repr, DecidableEq

/-- `([^!]+)(!/[^@]+)?(@.+)?$`, the resource-path part of the second
pattern, greedy with full backtracking on the path length. -/
def rid2 (s4 : List Char) : Option (List Char × Option (List Char) × Option (List Char)) :=
  (revRange1 (s4.takeWhile (· != '!')).length).findSome? (fun n =>
    (bang2Tail (s4.drop n)).map (fun pr => (s4.take n, pr.1, pr.2)))

/-- `/(export|browser|file)/` followed by the resource-path part: the
second pattern after the `(?:/zip)*` group, for one candidate remainder. -/
def pat2Body (fmt : Bool) (s3 : List Char) : Option G2 :=
  match s3 with
  | '/' :: s4 =>
    words2.findSome? (fun w =>
      (stripPre (w ++ ['/']) s4).bind (fun s5 =>
        (rid2 s5).map (fun t =>
          { fmt := fmt, realm := w, rid := t.1,
            inner := t.2.1, rev := t.2.2 })))
  | _ => none

/-- The matcher for the second regex of `match_request` (line 143). -/
def pat2 (s : List Char) : Option G2 :=
  (pfxMatch s).bind (fun fs =>
    (starZip fs.2).findSome? (pat2Body fs.1))

/-! ## The data model: `Resource` and the request argument dict -/

/-- One `(realm, id, version)` triple of a resource's parent chain. -/
structure ResFrame where
  realm : String
  id : String
  version : Option String
deriving Repr, DecidableEq

/-- Trac's `Resource(realm, id, version, parent)` value; the parent chain
is kept as a list of frames, nearest parent first (resource parent chains
are linear, so this encoding is faithful). -/
structure Resource where
  realm : String
  id : String
  version : Option String
  parents : List ResFrame
deriving Repr, DecidableEq

/-- The `resource.parent` attribute (`None` when the chain is empty). -/
def Resource.parent (r : Resource) : Option Resource :=
  match r.parents with
  | [] => none
  | f :: rest => some ⟨f.realm, f.id, f.version, rest⟩

/-- `Resource(realm, id)`. -/
def Resource.base (realm id : String) : Resource := ⟨realm, id, none, []⟩

/-- `resource.child(realm, id, version)`. -/
def Resource.child (r : Resource) (realm id : String)
    (version : Option String := none) : Resource :=
  ⟨realm, id, version, ⟨r.realm, r.id, r.version⟩ :: r.parents⟩

/-- The keys `match_request` stores into `req.args`.  `format` and `path`
are always written when a pattern matches (possibly with value `None`,
embedded as `none`); `rev` is only written when the revision group
matched, and absence is also embedded as `none`. -/
structure Args where
  format : Option String
  path : Option String
  attachment : Option Resource
  browser : Option Resource
  rev : Option String
deriving Repr, DecidableEq

/-- Line 138-141: the argument dict built from the first pattern's groups. -/
def argsOfG1 (g : G1) : Args :=
  { format := if g.fmt then some "raw-" else none
  , path := g.inner.map (fun p => ('!' :: '/' :: p).asString)
  , attachment :=
      some ((Resource.base g.realm.asString g.rid.asString).child "attachment"
        g.archive.asString)
  , browser := none
  , rev := g.rev.map List.asString }

/-- Line 145-148: the argument dict built from the second pattern's groups. -/
def argsOfG2 (g : G2) : Args :=
  { format := if g.fmt then some "raw-" else none
  , path := g.inner.map (fun p => ('!' :: '/' :: p).asString)
  , attachment := none
  , browser := some (Resource.base g.realm.asString g.rid.asString)
  , rev := g.rev.map List.asString }

/-- `ZipRenderer.match_request` (lines 134-150): try the attachment
pattern, then the browser pattern; `none` is Python's falsy `None`
returned when neither matches. -/
def match_request (pathInfo : String) : Option Args :=
  match pat1 pathInfo.toList with
  | some g => some (argsOfG1 g)
  | none =>
    match pat2 pathInfo.toList with
    | some g => some (argsOfG2 g)
    | none => none

/-! ## The ZIP file model

A file object is either opaque bytes or a ZIP container; a ZIP container
is represented structurally as its member list, each member carrying its
`filename`, `file_size`, `date_time` and contents.  `ZipFile(fileobj)`
succeeds exactly on the `zip` constructor (opening a non-archive raises
`BadZipFile`, which `process_request` does not catch).  Name lookup
(`ZipFile.getinfo` / `ZipFile.open`) uses the `NameToInfo` dict, in which
a duplicated member name keeps the last occurrence. -/

abbrev ZDate := Nat × Nat × Nat × Nat × Nat × Nat

inductive FileData where
  | bytes (bs : List Nat)
  | zip (entries : List (String × Nat × ZDate × FileData))

abbrev ZEntry := String × Nat × ZDate × FileData

/-- `ZipFile(fileobj)`: the member list, or `none` (`BadZipFile`). -/
def zipEntries : FileData → Option (List ZEntry)
  | .zip es => some es
  | .bytes _ => none

/-- `NameToInfo` lookup: last occurrence of a duplicated name wins. -/
def zfind (e : String) (es : List ZEntry) : Option (Nat × ZDate × FileData) :=
  es.reverse.findSome? (fun ent => if ent.1 = e then some ent.2 else none)

/-- `fileobj.peek(512)`; for a structurally represented archive the raw
byte view is abstracted as `[]` (no claim depends on its value). -/
def peekBytes : FileData → List Nat
  | .bytes bs => bs.take 512
  | .zip _ => []

/-! ## Python exceptions and framework error types -/

/-- Errors of `Attachment(env, resource)` followed by `.open()`. -/
inductive AttachErr where
  | resourceNotFound
  | ioError
deriving Repr, DecidableEq

/-- Errors of `Attachment(env, parent)` inside `resource_exists`. -/
inductive MkAttachErr where
  | resourceNotFound
  | otherExn (msg : String)
deriving Repr, DecidableEq

/-- Errors of `get_existing_node`. -/
inductive NodeErr where
  | noSuchChangeset (msg : String)
  | noSuchNode (msg : String)
deriving Repr, DecidableEq

/-- Exceptions that can escape the embedded methods: the framework's
exception types plus the plain Python exceptions the code can hit
(`KeyError` from ZIP lookups, `NameError`/`AttributeError` from local
variables read on paths where they were never assigned). -/
inductive PyErr where
  | resourceNotFound (msg detail : String)
  | tracError (msg : String)
  | permissionError (action : String)
  | keyError (key : String)
  | badZipFile
  | attributeError (msg : String)
  | nameError (name : String)
  | ioError
  | noSuchNode (msg : String)
  | otherExn (msg : String)
deriving Repr, DecidableEq

/-! ## Request, environment and outcome -/

/-- The sent HTTP response of the raw branch: status, headers in the
order `send_header` is called, and the streamed file object. -/
structure Response where
  status : Nat
  headers : List (String × String)
  body : Option FileData

structure AttObjM where
  description : String
  size : Nat
  date : String
  author : String
deriving Repr, DecidableEq

structure Repos where
  name : String
deriving Repr, DecidableEq

structure Node where
  content : FileData
  kind : String
  createdRev : Int
  contentLength : Nat

/-- One element of the XHR listing's `data['dir']['entries']`. -/
structure DirEntry where
  name : String
  kind : String
  contentLength : Nat
  path : String
  createdRev : Int
deriving Repr, DecidableEq

/-- The `_ZipAttachment` view built in the attachment template branch. -/
structure ZipAttachmentView where
  description : String
  size : Nat
  date : String
  author : String
  filename : String
  parentRealm : String
  parentId : String
deriving Repr, DecidableEq

/-- Template data payloads (only the claim-relevant parts are kept). -/
inductive TData where
  | dirEntries (reponame : String) (stickyrev : Int) (entries : List DirEntry)
  | attachmentView (preview : String) (att : ZipAttachmentView)
  | browserView (preview : String) (size : Nat) (reponame : String)

/-- What a call of `process_request` does: delegate to the standard
module (line 160), return a template tuple, raise `RequestDone` after
sending a response, or raise an exception. -/
inductive Outcome where
  | delegate (toBrowser : Bool)
  | template (name : String) (data : TData)
  | done (resp : Response)
  | exn (e : PyErr)

/-- The request state `process_request` reads: the argument dict, whether
the `X-Requested-With` header equals `XMLHttpRequest`, and the
`If-Modified-Since` header. -/
structure Req where
  args : Args
  xhr : Bool
  ifModifiedSince : Option String

/-- The host-framework primitives `process_request` and the resource
methods call, abstracted as an explicit environment. -/
structure Env where
  permAttachmentView : Resource → Bool
  permFileView : Resource → Bool
  openAttachment : Resource → Except AttachErr (AttObjM × FileData)
  repoByPath : String → String × Option Repos × String
  getExistingNode : Repos → String → Option String → Except NodeErr Node
  getMimetype : String → List Nat → Option String
  getCharset : List Nat → String → String
  renderUnsafeContent : Bool
  previewData : String → Option String → Nat → String
  resourceHref : Resource → String
  unquote : String → String
  mkAttachment : Option Resource → Except MkAttachErr String
  pathExists : String → Bool

/-! ## `process_request` helpers -/

/-- Python truthiness of an optional string value. -/
def pyTruthy : Option String → Bool
  | none => false
  | some s => s != ""

/-- Python `s[2:]`. -/
def pyDrop2 (s : String) : String := (s.toList.drop 2).asString

/-- Python `str.split('!')`: split at every `!`, keeping empty pieces
(`''.split('!')` is `['']`). -/
def splitBang : List Char → List (List Char)
  | [] => [[]]
  | c :: cs =>
    if c = '!' then [] :: splitBang cs
    else
      match splitBang cs with
      | [] => [[c]]
      | g :: gs => (c :: g) :: gs

/-- Line 193: `[e.lstrip('/') for e in name.split('!')]`. -/
def segmentsOf (name : String) : List String :=
  (splitBang name.toList).map (fun g => (g.dropWhile (fun c => c == '/')).asString)

/-- Lines 162-164: `rev = req.args.get('rev', None)`, reset to `None`
when truthy and lower-cased to the empty string or `head`. -/
def revNorm : Option String → Option String
  | some r => if r ≠ "" ∧ (r.toLower = "" ∨ r.toLower = "head") then none else some r
  | none => none

/-- Modelled from the spec: the framework chain
`http_date(to_datetime(datetime(*zipinfo.date_time)))` (line 321-322),
whose implementation lives in Trac, not in this repository; embedded as
an injective textual rendering of the six timestamp components. -/
def http_date (d : ZDate) : String :=
  String.intercalate ","
    [toString d.1, toString d.2.1, toString d.2.2.1,
     toString d.2.2.2.1, toString d.2.2.2.2.1, toString d.2.2.2.2.2]

/-- Python's `needle in hay` substring test. -/
def hasSub (n : List Char) : List Char → Bool
  | [] => (stripPre n []).isSome
  | c :: cs => (stripPre n (c :: cs)).isSome || hasSub n cs

/-- Lines 240-247: peek the stream, sniff the MIME type and append a
charset when the sniffed type is truthy and carries none. -/
def sniffMime (env : Env) (name : String) (f : FileData) : Option String :=
  let strData := peekBytes f
  match env.getMimetype name strData with
  | some m =>
    if m != "" && !(hasSub "charset=".toList m.toList) then
      some (m ++ "; charset=" ++ env.getCharset strData m)
    else some m
  | none => none

/-- The `ResourceNotFound` raised at lines 200-202 and 234-236. -/
def zipNotFound (name : String) : PyErr :=
  .resourceNotFound ("Attchment " ++ name ++ " does not exist.")
    "Invalid filename in Zip"

/-- `zipfile.open(element)`: `KeyError` when the name is missing. -/
def zipOpenEntry (es : List ZEntry) (e : String) : Except PyErr FileData :=
  match zfind e es with
  | none => .error (.keyError e)
  | some i => .ok i.2.2

/-- Lines 192-202: the traversal loop.  Each iteration wraps the current
file object in a `ZipFile` and replaces it by the opened member; a
`KeyError` from `open` is caught and re-raised as `ResourceNotFound`.
Returns the final file object together with the last `zipfile` and the
last `element`, which stay bound after the loop. -/
def zipDescend (name : String) :
    FileData → String → List String → Except PyErr (FileData × List ZEntry × String)
  | f, e, rest =>
    match zipEntries f with
    | none => .error .badZipFile
    | some es =>
      match zipOpenEntry es e with
      | .error (.keyError _) => .error (zipNotFound name)
      | .error err => .error err
      | .ok f2 =>
        match rest with
        | [] => .ok (f2, es, e)
        | e2 :: rest2 => zipDescend name f2 e2 rest2

/-- Lines 319-340: the raw-format response.  `304` with `Content-Length`
`0` when `If-Modified-Since` equals the member's HTTP date, else `200`
with `Content-Disposition: attachment` unless `render_unsafe_content`,
the sniffed `Content-Type` when truthy, the member's size and HTTP date,
and the file object as body; both paths raise `RequestDone`. -/
def rawResponse (env : Env) (req : Req) (fileobj : FileData) (size : Nat)
    (dt : ZDate) (mime : Option String) : Outcome :=
  let lm := http_date dt
  if req.ifModifiedSince = some lm then
    .done { status := 304, headers := [("Content-Length", "0")], body := none }
  else
    .done { status := 200
          , headers :=
              (if env.renderUnsafeContent then [] else [("Content-Disposition", "attachment")]) ++
              (match mime with
               | some m => if m != "" then [("Content-Type", m)] else []
               | none => []) ++
              [("Content-Length", toString size), ("Last-Modified", lm)]
          , body := some fileobj }

/-- Lines 207-340 after the traversal loop.  `lastLoop` carries the
`zipfile`/`element` locals left by the loop (`none` when the loop did not
run, in which case line 230 reads the unassigned `element`); `reponame`,
`repos`, `rpath` and `node` are the browser-branch locals (`none` on the
attachment branch, where line 211 reads the unassigned `reponame`). -/
def stage4 (env : Env) (req : Req) (resource : Resource)
    (attObj : Option AttObjM) (reponame : Option String)
    (rpath : Option String) (node : Option Node)
    (name : String) (fileobj : FileData)
    (lastLoop : Option (List ZEntry × String)) : Outcome :=
  if req.xhr then
    -- lines 207-227
    match zipEntries fileobj with
    | none => .exn .badZipFile
    | some es =>
      match reponame with
      | none => .exn (.nameError "reponame")
      | some rn =>
        match node with
        | none => .exn (.nameError "node")
        | some nd =>
          match rpath with
          | none => .exn (.nameError "path")
          | some pth =>
            .template "dir_entries.html" (.dirEntries rn nd.createdRev
              ((es.filter (fun ent => !(ent.1.endsWith "/"))).map (fun ent =>
                { name := ent.1, kind := nd.kind, contentLength := ent.2.1,
                  path := pth ++ (req.args.path.getD "") ++ "!/" ++ ent.1,
                  createdRev := nd.createdRev })))
  else
    -- lines 229-236: `element`/`zipfile` are unassigned when the loop
    -- did not run; otherwise `getinfo` with `KeyError` caught
    match lastLoop with
    | none => .exn (.nameError "element")
    | some (lastZip, lastElem) =>
      match zfind lastElem lastZip with
      | none => .exn (zipNotFound name)
      | some info =>
        let mime := sniffMime env name fileobj
        if req.args.format ≠ some "raw-" then
          -- lines 249-317: templated branches
          let preview := env.previewData name mime info.1
          match attObj with
          | some a =>
            .template "attachment.html" (.attachmentView preview
              { description := a.description, size := a.size, date := a.date,
                author := a.author, filename := name,
                parentRealm := resource.realm, parentId := resource.id })
          | none =>
            match node, reponame with
            | some nd, some rn =>
              .template "browser.html" (.browserView preview nd.contentLength rn)
            | _, _ => .exn (.nameError "node")
        else
          rawResponse env req fileobj info.1 info.2.1 mime

/-- Lines 187-205: compute `name`, log line 190 (which dereferences
`attachment.resource.id` and therefore raises `AttributeError` whenever
the attachment branch was not taken), then run the traversal loop when
`name` is non-empty. -/
def stage2 (env : Env) (req : Req) (resource : Resource)
    (attObj : Option AttObjM) (reponame : Option String)
    (rpath : Option String) (node : Option Node) (fileobj0 : FileData) : Outcome :=
  let name := pyDrop2 (req.args.path.getD "")
  match attObj with
  | none => .exn (.attributeError "NoneType object has no attribute resource")
  | some a =>
    if name ≠ "" then
      match segmentsOf name with
      | [] => .exn (.tracError "unreachable")
      | e :: rest =>
        match zipDescend name fileobj0 e rest with
        | .error err => .exn err
        | .ok (fileobj, lastZip, lastElem) =>
          stage4 env req resource (some a) reponame rpath node name fileobj
            (some (lastZip, lastElem))
    else
      stage4 env req resource (some a) reponame rpath node name fileobj0 none

/-- `ZipRenderer.process_request` (lines 152-340). -/
def processRequest (env : Env) (req : Req) : Outcome :=
  let attachment := req.args.attachment
  let browser := req.args.browser
  if !(pyTruthy req.args.path) && !req.xhr then
    -- lines 158-160: rewrite req.args['path'] to resource.id (an
    -- AttributeError when both resources are absent) and delegate to
    -- BrowserModule / AttachmentModule
    match attachment.orElse (fun _ => browser) with
    | none => .exn (.attributeError "NoneType object has no attribute id")
    | some _ => .delegate browser.isSome
  else
    let rev := revNorm req.args.rev
    match attachment with
    | some aRes =>
      -- lines 165-168
      if env.permAttachmentView aRes then
        match env.openAttachment aRes with
        | .error .resourceNotFound => .exn (.resourceNotFound "Attachment not found" "")
        | .error .ioError => .exn .ioError
        | .ok af => stage2 env req aRes (some af.1) none none none af.2
      else .exn (.permissionError "ATTACHMENT_VIEW")
    | none =>
      match browser with
      | some bRes =>
        -- lines 170-183
        if env.permFileView bRes then
          match env.repoByPath bRes.id with
          | (reponame, none, _) =>
            if reponame ≠ "" then
              .exn (.resourceNotFound ("Repository " ++ reponame ++ " not found") "")
            else
              -- line 183 with neither `if` taken: `node` was never assigned
              .exn (.nameError "node")
          | (reponame, some repos, rpath) =>
            match env.getExistingNode repos rpath rev with
            | .error (.noSuchChangeset msg) =>
              .exn (.resourceNotFound msg "Invalid changeset number")
            | .error (.noSuchNode msg) => .exn (.noSuchNode msg)
            | .ok node =>
              stage2 env req bRes none (some reponame) (some rpath) (some node)
                node.content
        else .exn (.permissionError "FILE_VIEW")
      | none =>
        -- lines 184-185
        .exn (.tracError "Not Implemented")

/-! ## The small interface methods -/

/-- `get_resource_realms` (lines 66-68). -/
def get_resource_realms : List String := ["zip", "raw-zip"]

/-- `get_quality_ratio` (lines 109-112). -/
def get_quality_ratio (mimetype : String) : Nat :=
  if mimetype ∈ ["application/zip", "application/x-zip-compressed"] then 8 else 0

/-- The bound method a link resolver points at; `_format_link` is the
only one the class registers. -/
inductive LinkResolver where
  | formatLink
deriving Repr, DecidableEq

/-- `get_link_resolvers` (lines 61-63). -/
def get_link_resolvers : List (String × LinkResolver) :=
  [("raw-zip", .formatLink), ("zip", .formatLink)]

/-- The single call to the `href` builder made at line 80. -/
structure HrefCall where
  pre : String
  pathArg : String
  kwargs : List (String × String)
deriving Repr, DecidableEq

def kwGet (kwargs : List (String × String)) (k : String) : Option String :=
  (kwargs.find? (fun kv => kv.1 == k)).map (·.2)

def kwPop (kwargs : List (String × String)) (k : String) : List (String × String) :=
  kwargs.filter (fun kv => kv.1 != k)

/-- `resource.parent(version=None)` at line 79. -/
def parentAtVersionNone (r : Resource) : Resource := { r with version := none }

/-- `ZipRenderer.get_resource_url` (lines 70-80): `None` without a
parent; otherwise an `href` call whose first component is `zip`, or
`raw-zip` with the `format` key removed when `format='raw'` was passed. -/
def get_resource_url (env : Env) (resource : Resource)
    (kwargs : List (String × String)) : Option HrefCall :=
  match resource.parent with
  | none => none
  | some par =>
    let fmt := kwGet kwargs "format"
    let pre := if fmt = some "raw" then "raw-zip" else "zip"
    let kw2 := if fmt = some "raw" then kwPop kwargs "format" else kwargs
    let parentHref := env.unquote (env.resourceHref (parentAtVersionNone par))
    some { pre := pre, pathArg := parentHref ++ "!/" ++ resource.id, kwargs := kw2 }

/-- `ZipRenderer.resource_exists` (lines 97-102): `Attachment` on the
parent with `ResourceNotFound` caught as `False`; any other exception
escapes; otherwise `os.path.exists(attachment.path)`. -/
def resource_exists (env : Env) (resource : Resource) : Except PyErr Bool :=
  match env.mkAttachment resource.parent with
  | .error .resourceNotFound => .ok false
  | .error (.otherExn m) => .error (.otherExn m)
  | .ok path => .ok (env.pathExists path)

/-! ## Specification-side vocabulary for the claims

The `...Shape` predicates below state, following the claim's reading of
the patterns, that a path decomposes into the advertised pieces; the
character constraints are those of the regex's character classes
(`.` excludes the newline, and `$` also matches just before one final
newline, hence the `EndsOk` tail). -/

/-- `k` repetitions of the `(?:/zip)*` group. -/
def zipRep : Nat → List Char
  | 0 => []
  | k + 1 => zipChars ++ zipRep k

/-- The text contributed by the `(raw-)?` group. -/
def optRaw (b : Bool) : List Char := if b then ['r', 'a', 'w', '-'] else []

/-- The text contributed by the optional `@<rev>` suffix. -/
def optRev : Option (List Char) → List Char
  | none => []
  | some r => '@' :: r

/-- The text contributed by the optional `!/<inner-path>` suffix. -/
def optInner : Option (List Char) → List Char
  | none => []
  | some p => '!' :: '/' :: p

/-- The string decomposes as the optional `@<rev>` suffix (nonempty,
newline-free) followed by the `$` tail. -/
def RevShape (s : List Char) (rv : Option (List Char)) : Prop :=
  ∃ t, EndsOk t ∧ s = optRev rv ++ t ∧ (∀ r, rv = some r → r ≠ [] ∧ '\n' ∉ r)

/-- The string decomposes as `(!/.+)?(@.+)?$`. -/
def BangShape (s : List Char) (pr : Option (List Char) × Option (List Char)) : Prop :=
  ∃ rest, s = optInner pr.1 ++ rest ∧ RevShape rest pr.2 ∧
    (∀ p, pr.1 = some p → p ≠ [] ∧ '\n' ∉ p)

/-- The string decomposes as `(!/[^@]+)?(@.+)?$`. -/
def Bang2Shape (s : List Char) (pr : Option (List Char) × Option (List Char)) : Prop :=
  ∃ rest, s = optInner pr.1 ++ rest ∧ RevShape rest pr.2 ∧
    (∀ p, pr.1 = some p → p ≠ [] ∧ '@' ∉ p)

/-- The path matches
`/(raw-)?zip(?:/zip)*/attachment/<realm>/<id>/<archive>` optionally
followed by `!/<inner-path>` and `@<rev>`, with the captures `g`. -/
def G1Shape (s : List Char) (g : G1) : Prop :=
  (∃ k rest,
      s = '/' :: optRaw g.fmt ++ zipWord ++ zipRep k ++ attachChars ++
        g.realm ++ '/' :: g.rid ++ '/' :: g.archive ++ rest ∧
      BangShape rest (g.inner, g.rev)) ∧
  g.realm ≠ [] ∧ '/' ∉ g.realm ∧
  '!' ∉ g.rid ∧
  g.archive ≠ [] ∧ '/' ∉ g.archive ∧ '!' ∉ g.archive

/-- The path matches
`/(raw-)?zip(?:/zip)*/(export|browser|file)/<path>` optionally followed
by `!/<inner-path>` and `@<rev>`, with the captures `g`. -/
def G2Shape (s : List Char) (g : G2) : Prop :=
  (∃ k rest,
      s = '/' :: optRaw g.fmt ++ zipWord ++ zipRep k ++ '/' :: g.realm ++
        '/' :: g.rid ++ rest ∧
      Bang2Shape rest (g.inner, g.rev)) ∧
  g.realm ∈ words2 ∧
  g.rid ≠ [] ∧ '!' ∉ g.rid

/-- Sequential delegation into the ZIP format, as the claims state it:
follow the segments in order, each step opening the current file as an
archive and selecting the member of that name. -/
def followPath : FileData → List String → Option FileData
  | f, [] => some f
  | f, e :: rest =>
    match zipEntries f with
    | none => none
    | some es =>
      match zfind e es with
      | none => none
      | some i => followPath i.2.2 rest

/-! ## Concrete fixtures used to instantiate the theorems -/

/-- A plain (non-archive) member body. -/
def sampleInner : FileData := .bytes [7, 8, 9]

/-- The member list of the sample archive: a plain file, a directory
entry, and a nested archive. -/
def sampleEntries : List ZEntry :=
  [("f.txt", 3, (2020, 1, 2, 3, 4, 5), sampleInner),
   ("sub/", 0, (2020, 1, 1, 0, 0, 0), .bytes []),
   ("n.zip", 9, (2021, 6, 7, 8, 9, 10),
     .zip [("deep.bin", 2, (2022, 2, 2, 2, 2, 2), .bytes [1, 2])])]

def sampleZip : FileData := .zip sampleEntries

def sampleAtt : AttObjM := ⟨"a sample attachment", 10, "2020-01-02", "alice"⟩

def sampleRepos : Repos := ⟨"repo1"⟩

def sampleNode : Node := ⟨sampleZip, "file", 42, 100⟩

/-- A benign environment in which every framework call succeeds. -/
def sampleEnv : Env :=
  { permAttachmentView := fun _ => true
  , permFileView := fun _ => true
  , openAttachment := fun _ => .ok (sampleAtt, sampleZip)
  , repoByPath := fun _ => ("repo1", some sampleRepos, "trunk/a.zip")
  , getExistingNode := fun _ _ _ => .ok sampleNode
  , getMimetype := fun _ _ => some "text/plain"
  , getCharset := fun _ _ => "utf-8"
  , renderUnsafeContent := false
  , previewData := fun _ _ _ => "preview"
  , resourceHref := fun r => "/attachment/" ++ r.id
  , unquote := id
  , mkAttachment := fun _ => .ok "/var/trac/a.zip"
  , pathExists := fun _ => true }

/-- The environment where the resource path names no loadable repository. -/
def sampleEnvNoRepo : Env :=
  { sampleEnv with repoByPath := fun _ => ("badrepo", none, "x") }

/-- The environment where the requested revision is an invalid changeset. -/
def sampleEnvBadChangeset : Env :=
  { sampleEnv with
    getExistingNode := fun _ _ _ =>
      .error (.noSuchChangeset "No changeset 99 in the repository") }

/-- The environment where the parent attachment cannot be instantiated. -/
def sampleEnvRNF : Env :=
  { sampleEnv with mkAttachment := fun _ => .error .resourceNotFound }

/-- The attachment resource produced by the first pattern. -/
def attRes : Resource := (Resource.base "wiki" "Page").child "attachment" "a.zip"

/-- The browser resource produced by the second pattern. -/
def browRes : Resource := Resource.base "browser" "trunk/a.zip"

/-! ## Basic lemmas about the helpers -/

theorem stripPre_some : ∀ (p s t : List Char), stripPre p s = some t → s = p ++ t := by
  intro p
  induction p with
  | nil => intro s t h; simp [stripPre] at h; simp [h]
  | cons c ps ih =>
    intro s t h
    cases s with
    | nil => simp [stripPre] at h
    | cons c2 cs =>
      by_cases hc : c = c2
      · subst hc
        simp [stripPre] at h
        have := ih cs t h
        simp [this]
      · simp [stripPre, hc] at h

theorem stripPre_append (p t : List Char) : stripPre p (p ++ t) = some t := by
  induction p with
  | nil => simp [stripPre]
  | cons c ps ih => simp [stripPre, ih]

theorem tw_take (p : Char → Bool) (l : List Char) :
    l.take (l.takeWhile p).length = l.takeWhile p := by
  induction l with
  | nil => simp
  | cons c cs ih =>
    by_cases hc : p c
    · simp [List.takeWhile_cons, hc, ih]
    · simp [List.takeWhile_cons, hc]

theorem take_of_le_tw (p : Char → Bool) :
    ∀ (l : List Char) (j : Nat), j ≤ (l.takeWhile p).length →
      ∀ a ∈ l.take j, p a = true := by
  intro l
  induction l with
  | nil => intro j _ a ha; simp at ha
  | cons c cs ih =>
    intro j hj a ha
    cases j with
    | zero => simp at ha
    | succ j =>
      by_cases hc : p c
      · simp [List.takeWhile_cons, hc] at hj
        simp [List.take_succ_cons] at ha
        rcases ha with ha | ha
        · exact ha ▸ hc
        · exact ih j hj a ha
      · simp [List.takeWhile_cons, hc] at hj

theorem tw_append_all (p : Char → Bool) (A B : List Char)
    (h : ∀ a ∈ A, p a = true) : (A ++ B).takeWhile p = A ++ B.takeWhile p := by
  induction A with
  | nil => simp
  | cons c cs ih =>
    have hc : p c = true := h c (by simp)
    simp [List.takeWhile_cons, hc]
    exact ih (fun a ha => h a (by simp [ha]))

theorem tw_len_le (p : Char → Bool) (l : List Char) :
    (l.takeWhile p).length ≤ l.length := by
  induction l with
  | nil => simp
  | cons c cs ih =>
    by_cases hc : p c
    · simp [List.takeWhile_cons, hc]; omega
    · simp [List.takeWhile_cons, hc]

theorem get?_append_len (A B : List Char) (c : Char) :
    (A ++ c :: B).get? A.length = some c := by
  induction A with
  | nil => rfl
  | cons a as ih => simpa using ih

theorem drop_append_len (A B : List Char) : (A ++ B).drop A.length = B := by
  simp

theorem drop_append_len_succ (A B : List Char) (c : Char) :
    (A ++ c :: B).drop (A.length + 1) = B := by
  have : A ++ c :: B = (A ++ [c]) ++ B := by simp
  rw [this]
  have hl : A.length + 1 = (A ++ [c]).length := by simp
  rw [hl, drop_append_len]

theorem get?_drop_cons : ∀ (l : List Char) (j : Nat) (c : Char),
    l.get? j = some c → l.drop j = c :: l.drop (j + 1) := by
  intro l
  induction l with
  | nil => intro j c h; simp at h
  | cons a as ih =>
    intro j c h
    cases j with
    | zero => simp at h; simp [h]
    | succ j =>
      rw [List.get?_cons_succ] at h
      simpa using ih j c h

theorem findSome?_ex {α β : Type} (f : α → Option β) :
    ∀ (l : List α) (b : β), l.findSome? f = some b → ∃ a, a ∈ l ∧ f a = some b := by
  intro l
  induction l with
  | nil => intro b h; simp [List.findSome?] at h
  | cons a as ih =>
    intro b h
    cases hfa : f a with
    | some v =>
      refine ⟨a, by simp, ?_⟩
      rw [hfa]
      rw [List.findSome?] at h
      rw [hfa] at h
      exact h
    | none =>
      rw [List.findSome?] at h
      rw [hfa] at h
      rcases ih b h with ⟨x, hx, hfx⟩
      exact ⟨x, by simp [hx], hfx⟩

theorem findSome?_isSome_of {α β : Type} (f : α → Option β) :
    ∀ (l : List α) (a : α), a ∈ l → (f a).isSome → (l.findSome? f).isSome := by
  intro l
  induction l with
  | nil => intro a ha; simp at ha
  | cons c cs ih =>
    intro a ha hf
    rcases List.mem_cons.mp ha with rfl | ha
    · rw [List.findSome?]
      cases hfa : f a with
      | some v => simp
      | none => rw [hfa] at hf; simp at hf
    · rw [List.findSome?]
      cases hfc : f c with
      | some v => simp
      | none => exact ih a ha hf

theorem opt_orElse_some {α : Type} (o₁ o₂ : Option α) (v : α)
    (h : (o₁ <|> o₂) = some v) : o₁ = some v ∨ (o₁ = none ∧ o₂ = some v) := by
  cases o₁ with
  | some w => left; simpa using h
  | none => right; exact ⟨rfl, by simpa using h⟩

theorem opt_orElse_isSome_left {α : Type} (o₁ o₂ : Option α)
    (h : o₁.isSome) : (o₁ <|> o₂).isSome := by
  cases o₁ with
  | some w => simp
  | none => simp at h

theorem opt_orElse_isSome_right {α : Type} (o₁ o₂ : Option α)
    (h : o₂.isSome) : (o₁ <|> o₂).isSome := by
  cases o₁ with
  | some w => simp
  | none => simpa using h

theorem mem_revRange1 (j n : Nat) : j ∈ revRange1 n ↔ 1 ≤ j ∧ j ≤ n := by
  simp only [revRange1, List.mem_map, List.mem_reverse, List.mem_range]
  constructor
  · rintro ⟨i, hi, rfl⟩; omega
  · intro h; exact ⟨j - 1, by omega, by omega⟩

theorem mem_revRange0 (j n : Nat) : j ∈ revRange0 n ↔ j ≤ n := by
  simp only [revRange0, List.mem_reverse, List.mem_range]
  omega

theorem zipRep_length (k : Nat) : (zipRep k).length = 4 * k := by
  induction k with
  | zero => rfl
  | succ k ih => simp [zipRep, zipChars, ih]; omega

theorem mem_self_starZipAux : ∀ (n : Nat) (s : List Char), s ∈ starZipAux n s := by
  intro n s
  cases n with
  | zero => simp [starZipAux]
  | succ n =>
    cases h : stripPre zipChars s with
    | some s2 => simp [starZipAux, h]
    | none => simp [starZipAux, h]

theorem starZipAux_sound : ∀ (n : Nat) (s t : List Char),
    t ∈ starZipAux n s → ∃ k, s = zipRep k ++ t := by
  intro n
  induction n with
  | zero =>
    intro s t h
    simp [starZipAux] at h
    exact ⟨0, by simp [zipRep, h]⟩
  | succ n ih =>
    intro s t h
    cases hs : stripPre zipChars s with
    | none =>
      simp [starZipAux, hs] at h
      exact ⟨0, by simp [zipRep, h]⟩
    | some s2 =>
      simp [starZipAux, hs] at h
      rcases h with h | h
      · rcases ih s2 t h with ⟨k, hk⟩
        refine ⟨k + 1, ?_⟩
        rw [stripPre_some _ _ _ hs, hk]
        simp [zipRep]
      · exact ⟨0, by simp [zipRep, h]⟩

theorem starZipAux_complete : ∀ (k n : Nat) (t : List Char), k ≤ n →
    t ∈ starZipAux n (zipRep k ++ t) := by
  intro k
  induction k with
  | zero => intro n t _; simpa [zipRep] using mem_self_starZipAux n t
  | succ k ih =>
    intro n t hk
    cases n with
    | zero => omega
    | succ m =>
      have hz : zipRep (k + 1) ++ t = zipChars ++ (zipRep k ++ t) := by
        simp [zipRep]
      rw [hz]
      have hs : stripPre zipChars (zipChars ++ (zipRep k ++ t)) = some (zipRep k ++ t) :=
        stripPre_append _ _
      simp [starZipAux, hs]
      left
      exact ih m t (by omega)

theorem starZip_sound (s t : List Char) (h : t ∈ starZip s) :
    ∃ k, s = zipRep k ++ t :=
  starZipAux_sound s.length s t h

theorem starZip_complete (k : Nat) (t : List Char) :
    t ∈ starZip (zipRep k ++ t) := by
  apply starZipAux_complete
  simp [zipRep_length]
  omega

/-! ## Soundness and completeness of the tail matchers -/

theorem take_ne_nil (l : List Char) (e : Nat) (h1 : 1 ≤ e) (h2 : e ≤ l.length) :
    l.take e ≠ [] := by
  have : (l.take e).length = e := by
    rw [List.length_take]; omega
  intro hnil
  rw [hnil] at this
  simp at this
  omega

theorem nl_not_mem_take (l : List Char) (e : Nat)
    (h : e ≤ (l.takeWhile (· != '\n')).length) : '\n' ∉ l.take e := by
  intro hmem
  have := take_of_le_tw (· != '\n') l e h '\n' hmem
  simp at this

theorem at_not_mem_take (l : List Char) (e : Nat)
    (h : e ≤ (l.takeWhile (· != '@')).length) : '@' ∉ l.take e := by
  intro hmem
  have := take_of_le_tw (· != '@') l e h '@' hmem
  simp at this

theorem tw_all_len_le (p : Char → Bool) (A B : List Char)
    (h : ∀ a ∈ A, p a = true) : A.length ≤ ((A ++ B).takeWhile p).length := by
  rw [tw_append_all p A B h]
  simp

theorem opt_map_isSome {α β : Type} (f : α → β) (o : Option α) :
    (o.map f).isSome = o.isSome := by
  cases o <;> rfl

theorem atTail_sound (s : List Char) (rv : Option (List Char))
    (h : atTail s = some rv) : RevShape s rv := by
  unfold atTail at h
  rcases opt_orElse_some _ _ _ h with h1 | ⟨_, h2⟩
  · split at h1
    · next s1 =>
      rcases findSome?_ex _ _ _ h1 with ⟨e, he, hfe⟩
      rw [mem_revRange1] at he
      split at hfe
      · next hEnd =>
        have hrv : rv = some (s1.take e) := by
          exact (Option.some.inj hfe).symm
        refine ⟨s1.drop e, hEnd, ?_, ?_⟩
        · rw [hrv]
          simp [optRev]
        · intro r hr
          rw [hrv] at hr
          cases hr
          have hle : e ≤ s1.length :=
            le_trans he.2 (tw_len_le _ _)
          exact ⟨take_ne_nil s1 e he.1 hle, nl_not_mem_take s1 e he.2⟩
      · exact absurd hfe (by simp)
    · exact absurd h1 (by simp)
  · split at h2
    · next hEnd =>
      have hrv : rv = none := (Option.some.inj h2).symm
      exact ⟨s, hEnd, by simp [hrv, optRev], by simp [hrv]⟩
    · exact absurd h2 (by simp)

theorem atTail_complete (s : List Char) (rv : Option (List Char))
    (h : RevShape s rv) : (atTail s).isSome := by
  rcases h with ⟨t, hEnd, hs, hr⟩
  cases rv with
  | none =>
    simp only [optRev, List.nil_append] at hs
    subst hs
    unfold atTail
    apply opt_orElse_isSome_right
    rw [if_pos hEnd]
    simp
  | some r =>
    rcases hr r rfl with ⟨hne, hnl⟩
    simp only [optRev] at hs
    subst hs
    unfold atTail
    apply opt_orElse_isSome_left
    apply findSome?_isSome_of _ _ r.length
    · rw [mem_revRange1]
      refine ⟨by simpa [Nat.one_le_iff_ne_zero, List.length_eq_zero] using hne, ?_⟩
      apply tw_all_len_le
      intro a ha
      simp
      intro hcontr
      exact hnl (hcontr ▸ ha)
    · simp only [List.append_eq]
      rw [drop_append_len, if_pos hEnd]
      simp

theorem bangTail_sound (s : List Char) (pr : Option (List Char) × Option (List Char))
    (h : bangTail s = some pr) : BangShape s pr := by
  unfold bangTail at h
  rcases opt_orElse_some _ _ _ h with h1 | ⟨_, h2⟩
  · split at h1
    · next s1 =>
      rcases findSome?_ex _ _ _ h1 with ⟨e, he, hfe⟩
      rw [mem_revRange1] at he
      cases hat : atTail (s1.drop e) with
      | none => rw [hat] at hfe; simp at hfe
      | some rv =>
        rw [hat] at hfe
        simp at hfe
        have hpr : pr = (some (s1.take e), rv) := hfe.symm
        refine ⟨s1.drop e, ?_, ?_, ?_⟩
        · rw [hpr]
          simp [optInner]
        · rw [hpr]
          exact atTail_sound _ _ hat
        · intro p hp
          rw [hpr] at hp
          cases hp
          have hle : e ≤ s1.length := le_trans he.2 (tw_len_le _ _)
          exact ⟨take_ne_nil s1 e he.1 hle, nl_not_mem_take s1 e he.2⟩
    · exact absurd h1 (by simp)
  · cases hat : atTail s with
    | none => rw [hat] at h2; simp at h2
    | some rv =>
      rw [hat] at h2
      simp at h2
      have hpr : pr = (none, rv) := h2.symm
      refine ⟨s, by simp [hpr, optInner], ?_, by simp [hpr]⟩
      rw [hpr]
      exact atTail_sound _ _ hat

theorem bangTail_complete (s : List Char) (pr : Option (List Char) × Option (List Char))
    (h : BangShape s pr) : (bangTail s).isSome := by
  rcases pr with ⟨inner, rv⟩
  rcases h with ⟨rest, hs, hrev, hp⟩
  cases inner with
  | none =>
    simp only [optInner, List.nil_append] at hs
    subst hs
    unfold bangTail
    apply opt_orElse_isSome_right
    rw [opt_map_isSome]
    exact atTail_complete _ _ hrev
  | some p =>
    rcases hp p rfl with ⟨hne, hnl⟩
    simp only [optInner] at hs
    subst hs
    unfold bangTail
    apply opt_orElse_isSome_left
    apply findSome?_isSome_of _ _ p.length
    · rw [mem_revRange1]
      refine ⟨by simpa [Nat.one_le_iff_ne_zero, List.length_eq_zero] using hne, ?_⟩
      apply tw_all_len_le
      intro a ha
      simp
      intro hcontr
      exact hnl (hcontr ▸ ha)
    · simp only [List.append_eq]
      rw [drop_append_len, opt_map_isSome]
      exact atTail_complete _ _ hrev

theorem bang2Tail_sound (s : List Char) (pr : Option (List Char) × Option (List Char))
    (h : bang2Tail s = some pr) : Bang2Shape s pr := by
  unfold bang2Tail at h
  rcases opt_orElse_some _ _ _ h with h1 | ⟨_, h2⟩
  · split at h1
    · next s1 =>
      rcases findSome?_ex _ _ _ h1 with ⟨e, he, hfe⟩
      rw [mem_revRange1] at he
      cases hat : atTail (s1.drop e) with
      | none => rw [hat] at hfe; simp at hfe
      | some rv =>
        rw [hat] at hfe
        simp at hfe
        have hpr : pr = (some (s1.take e), rv) := hfe.symm
        refine ⟨s1.drop e, ?_, ?_, ?_⟩
        · rw [hpr]
          simp [optInner]
        · rw [hpr]
          exact atTail_sound _ _ hat
        · intro p hp
          rw [hpr] at hp
          cases hp
          have hle : e ≤ s1.length := le_trans he.2 (tw_len_le _ _)
          exact ⟨take_ne_nil s1 e he.1 hle, at_not_mem_take s1 e he.2⟩
    · exact absurd h1 (by simp)
  · cases hat : atTail s with
    | none => rw [hat] at h2; simp at h2
    | some rv =>
      rw [hat] at h2
      simp at h2
      have hpr : pr = (none, rv) := h2.symm
      refine ⟨s, by simp [hpr, optInner], ?_, by simp [hpr]⟩
      rw [hpr]
      exact atTail_sound _ _ hat

theorem bang2Tail_complete (s : List Char) (pr : Option (List Char) × Option (List Char))
    (h : Bang2Shape s pr) : (bang2Tail s).isSome := by
  rcases pr with ⟨inner, rv⟩
  rcases h with ⟨rest, hs, hrev, hp⟩
  cases inner with
  | none =>
    simp only [optInner, List.nil_append] at hs
    subst hs
    unfold bang2Tail
    apply opt_orElse_isSome_right
    rw [opt_map_isSome]
    exact atTail_complete _ _ hrev
  | some p =>
    rcases hp p rfl with ⟨hne, hat⟩
    simp only [optInner] at hs
    subst hs
    unfold bang2Tail
    apply opt_orElse_isSome_left
    apply findSome?_isSome_of _ _ p.length
    · rw [mem_revRange1]
      refine ⟨by simpa [Nat.one_le_iff_ne_zero, List.length_eq_zero] using hne, ?_⟩
      apply tw_all_len_le
      intro a ha
      simp
      intro hcontr
      exact hat (hcontr ▸ ha)
    · simp only [List.append_eq]
      rw [drop_append_len, opt_map_isSome]
      exact atTail_complete _ _ hrev

/-! ## The archive and resource-path groups -/

theorem slashbang_not_mem_take (l : List Char) (n : Nat)
    (h : n ≤ (l.takeWhile (fun c => c != '/' && c != '!')).length) :
    '/' ∉ l.take n ∧ '!' ∉ l.take n := by
  constructor
  · intro hmem
    have := take_of_le_tw _ l n h '/' hmem
    simp at this
  · intro hmem
    have := take_of_le_tw _ l n h '!' hmem
    simp at this

theorem bang_not_mem_take (l : List Char) (n : Nat)
    (h : n ≤ (l.takeWhile (· != '!')).length) : '!' ∉ l.take n := by
  intro hmem
  have := take_of_le_tw _ l n h '!' hmem
  simp at this

theorem arch1_sound (s2 : List Char)
    (t : List Char × Option (List Char) × Option (List Char))
    (h : arch1 s2 = some t) :
    t.1 ≠ [] ∧ '/' ∉ t.1 ∧ '!' ∉ t.1 ∧
    ∃ rest, s2 = t.1 ++ rest ∧ BangShape rest (t.2.1, t.2.2) := by
  unfold arch1 at h
  rcases findSome?_ex _ _ _ h with ⟨n, hn, hfn⟩
  rw [mem_revRange1] at hn
  cases hbt : bangTail (s2.drop n) with
  | none => rw [hbt] at hfn; simp at hfn
  | some pr =>
    rw [hbt] at hfn
    simp at hfn
    have ht : t = (s2.take n, pr.1, pr.2) := hfn.symm
    have hle : n ≤ s2.length := le_trans hn.2 (tw_len_le _ _)
    have hmem := slashbang_not_mem_take s2 n hn.2
    refine ⟨?_, ?_, ?_, s2.drop n, ?_, ?_⟩
    · rw [ht]; exact take_ne_nil s2 n hn.1 hle
    · rw [ht]; exact hmem.1
    · rw [ht]; exact hmem.2
    · rw [ht]; simp
    · rw [ht]
      simpa using bangTail_sound _ _ hbt

theorem arch1_complete (arch rest : List Char)
    (pr : Option (List Char) × Option (List Char))
    (hne : arch ≠ []) (hs : '/' ∉ arch) (hb : '!' ∉ arch)
    (hbang : BangShape rest pr) : (arch1 (arch ++ rest)).isSome := by
  unfold arch1
  apply findSome?_isSome_of _ _ arch.length
  · rw [mem_revRange1]
    refine ⟨by simpa [Nat.one_le_iff_ne_zero, List.length_eq_zero] using hne, ?_⟩
    apply tw_all_len_le
    intro a ha
    simp
    constructor
    · intro hcontr; exact hs (hcontr ▸ ha)
    · intro hcontr; exact hb (hcontr ▸ ha)
  · rw [drop_append_len, opt_map_isSome]
    exact bangTail_complete _ _ hbang

theorem rid2_sound (s4 : List Char)
    (t : List Char × Option (List Char) × Option (List Char))
    (h : rid2 s4 = some t) :
    t.1 ≠ [] ∧ '!' ∉ t.1 ∧
    ∃ rest, s4 = t.1 ++ rest ∧ Bang2Shape rest (t.2.1, t.2.2) := by
  unfold rid2 at h
  rcases findSome?_ex _ _ _ h with ⟨n, hn, hfn⟩
  rw [mem_revRange1] at hn
  cases hbt : bang2Tail (s4.drop n) with
  | none => rw [hbt] at hfn; simp at hfn
  | some pr =>
    rw [hbt] at hfn
    simp at hfn
    have ht : t = (s4.take n, pr.1, pr.2) := hfn.symm
    have hle : n ≤ s4.length := le_trans hn.2 (tw_len_le _ _)
    refine ⟨?_, ?_, s4.drop n, ?_, ?_⟩
    · rw [ht]; exact take_ne_nil s4 n hn.1 hle
    · rw [ht]; exact bang_not_mem_take s4 n hn.2
    · rw [ht]; simp
    · rw [ht]
      simpa using bang2Tail_sound _ _ hbt

theorem rid2_complete (rid rest : List Char)
    (pr : Option (List Char) × Option (List Char))
    (hne : rid ≠ []) (hb : '!' ∉ rid)
    (hbang : Bang2Shape rest pr) : (rid2 (rid ++ rest)).isSome := by
  unfold rid2
  apply findSome?_isSome_of _ _ rid.length
  · rw [mem_revRange1]
    refine ⟨by simpa [Nat.one_le_iff_ne_zero, List.length_eq_zero] using hne, ?_⟩
    apply tw_all_len_le
    intro a ha
    simp
    intro hcontr
    exact hb (hcontr ▸ ha)
  · rw [drop_append_len, opt_map_isSome]
    exact bang2Tail_complete _ _ hbang

/-! ## The realm/id/archive part of the first pattern -/

theorem tw_mem (p : Char → Bool) :
    ∀ (l : List Char) (a : Char), a ∈ l.takeWhile p → p a = true := by
  intro l
  induction l with
  | nil => intro a ha; simp at ha
  | cons c cs ih =>
    intro a ha
    by_cases hc : p c
    · rw [List.takeWhile_cons, if_pos hc] at ha
      rcases List.mem_cons.mp ha with rfl | ha
      · exact hc
      · exact ih a ha
    · rw [List.takeWhile_cons, if_neg hc] at ha
      simp at ha

theorem tail1_eq_cons (u s1 : List Char)
    (heq : u.drop (u.takeWhile (· != '/')).length = '/' :: s1) :
    tail1 u = (if u.takeWhile (· != '/') = [] then none else
      (revRange0 (s1.takeWhile (· != '!')).length).findSome? (fun j =>
        if s1.get? j = some '/' then
          (arch1 (s1.drop (j + 1))).map (fun t =>
            { fmt := false, realm := u.takeWhile (· != '/'), rid := s1.take j,
              archive := t.1, inner := t.2.1, rev := t.2.2 })
        else none)) := by
  unfold tail1
  rw [heq]
  split
  · next s1x heq2 =>
    cases heq2
    rfl
  · next hno => exact absurd rfl (hno s1)

theorem tail1_sound (u : List Char) (g : G1) (h : tail1 u = some g) :
    g.realm ≠ [] ∧ '/' ∉ g.realm ∧ '!' ∉ g.rid ∧
    g.archive ≠ [] ∧ '/' ∉ g.archive ∧ '!' ∉ g.archive ∧
    ∃ rest, u = g.realm ++ '/' :: g.rid ++ '/' :: g.archive ++ rest ∧
      BangShape rest (g.inner, g.rev) := by
  unfold tail1 at h
  split at h
  · next s1 heq =>
    split at h
    · exact absurd h (by simp)
    · next hr =>
      rcases findSome?_ex _ _ _ h with ⟨j, hj, hfj⟩
      rw [mem_revRange0] at hj
      split at hfj
      · next hslash =>
        cases ht : arch1 (s1.drop (j + 1)) with
        | none => rw [ht] at hfj; simp at hfj
        | some t =>
          rw [ht] at hfj
          simp at hfj
          rcases arch1_sound _ _ ht with ⟨hane, has, hab, rest, hsplit, hbang⟩
          have hu : u = (u.takeWhile (· != '/')) ++ '/' :: s1 := by
            conv_lhs => rw [← List.take_append_drop (u.takeWhile (· != '/')).length u]
            rw [tw_take, heq]
          have hdropj : s1.drop j = '/' :: s1.drop (j + 1) :=
            get?_drop_cons s1 j '/' hslash
          have hs1 : s1 = s1.take j ++ '/' :: (t.1 ++ rest) := by
            conv_lhs => rw [← List.take_append_drop j s1]
            rw [hdropj, hsplit]
          subst hfj
          refine ⟨hr, ?_, bang_not_mem_take s1 j hj, hane, has, hab, rest, ?_, ?_⟩
          · intro hmem
            have := tw_mem _ u '/' hmem
            simp at this
          · show u = (u.takeWhile (· != '/')) ++ '/' :: s1.take j ++ '/' :: t.1 ++ rest
            have h2 : (u.takeWhile (· != '/')) ++ '/' :: s1.take j ++ '/' :: t.1 ++ rest
                = (u.takeWhile (· != '/')) ++ '/' :: (s1.take j ++ '/' :: (t.1 ++ rest)) := by
              simp [List.cons_append, List.append_assoc]
            rw [h2, ← hsplit, ← hdropj, List.take_append_drop, ← hu]
          · exact hbang
      · exact absurd hfj (by simp)
  · exact absurd h (by simp)

theorem tail1_complete (realm rid arch rest : List Char)
    (pr : Option (List Char) × Option (List Char))
    (hrne : realm ≠ []) (hrs : '/' ∉ realm) (hridb : '!' ∉ rid)
    (hane : arch ≠ []) (has : '/' ∉ arch) (hab : '!' ∉ arch)
    (hbang : BangShape rest pr) :
    (tail1 (realm ++ '/' :: rid ++ '/' :: arch ++ rest)).isSome := by
  have hform : realm ++ '/' :: rid ++ '/' :: arch ++ rest =
      realm ++ '/' :: (rid ++ '/' :: (arch ++ rest)) := by
    simp [List.cons_append, List.append_assoc]
  rw [hform]
  have htw : (realm ++ '/' :: (rid ++ '/' :: (arch ++ rest))).takeWhile (· != '/') = realm := by
    rw [tw_append_all (· != '/') realm _ ?_]
    · simp [List.takeWhile_cons]
    · intro a ha
      simp
      intro hcontr
      exact hrs (hcontr ▸ ha)
  have heq : (realm ++ '/' :: (rid ++ '/' :: (arch ++ rest))).drop
      ((realm ++ '/' :: (rid ++ '/' :: (arch ++ rest))).takeWhile (· != '/')).length =
      '/' :: (rid ++ '/' :: (arch ++ rest)) := by
    rw [htw]
    exact drop_append_len _ _
  rw [tail1_eq_cons _ _ heq, htw, if_neg hrne]
  apply findSome?_isSome_of _ _ rid.length
  · rw [mem_revRange0]
    apply tw_all_len_le
    intro a ha
    simp
    intro hcontr
    exact hridb (hcontr ▸ ha)
  · have hget : (rid ++ '/' :: (arch ++ rest)).get? rid.length = some '/' :=
      get?_append_len _ _ _
    rw [if_pos hget]
    rw [drop_append_len_succ, opt_map_isSome]
    exact arch1_complete arch rest pr hane has hab hbang

/-! ## The prefix and the full patterns -/

theorem pfxMatch_sound (s : List Char) (fs : Bool × List Char)
    (h : pfxMatch s = some fs) : s = '/' :: optRaw fs.1 ++ zipWord ++ fs.2 := by
  unfold pfxMatch at h
  split at h
  · next s1 =>
    split at h
    · next s2 hraw =>
      have hfs : fs = (true, s2) := (Option.some.inj h).symm
      rw [hfs]
      have := stripPre_some _ _ _ hraw
      rw [this]
      simp [optRaw, rawZipWord, zipWord]
    · next =>
      split at h
      · next s2 hzip =>
        have hfs : fs = (false, s2) := (Option.some.inj h).symm
        rw [hfs]
        have := stripPre_some _ _ _ hzip
        rw [this]
        simp [optRaw, zipWord]
      · exact absurd h (by simp)
  · exact absurd h (by simp)

theorem pfxMatch_complete (b : Bool) (t : List Char) :
    pfxMatch ('/' :: (optRaw b ++ (zipWord ++ t))) = some (b, t) := by
  cases b <;> simp [pfxMatch, optRaw, rawZipWord, zipWord, stripPre]

theorem pat1_sound (s : List Char) (g : G1) (h : pat1 s = some g) :
    G1Shape s g := by
  unfold pat1 at h
  rcases Option.bind_eq_some.mp h with ⟨fs, hpfx, hrest⟩
  rcases findSome?_ex _ _ _ hrest with ⟨s3, hmem, hf3⟩
  rcases Option.bind_eq_some.mp hf3 with ⟨u, hstrip, htail⟩
  cases ht : tail1 u with
  | none => rw [ht] at htail; simp at htail
  | some t =>
    rw [ht] at htail
    simp at htail
    rcases starZip_sound _ _ hmem with ⟨k, hk⟩
    have hs3 := stripPre_some _ _ _ hstrip
    rcases tail1_sound _ _ ht with ⟨hrne, hrs, hrid, hane, has, hab, rest, hu, hbang⟩
    have hsEq := pfxMatch_sound _ _ hpfx
    subst htail
    refine ⟨⟨k, rest, ?_, ?_⟩, hrne, hrs, hrid, hane, has, hab⟩
    · show s = '/' :: optRaw fs.1 ++ zipWord ++ zipRep k ++ attachChars ++
        t.realm ++ '/' :: t.rid ++ '/' :: t.archive ++ rest
      rw [hsEq, hk, hs3, hu]
      simp [List.cons_append, List.append_assoc]
    · exact hbang

theorem pat1_complete (s : List Char) (g : G1) (h : G1Shape s g) :
    (pat1 s).isSome := by
  rcases h with ⟨⟨k, rest, hsEq, hbang⟩, hrne, hrs, hrid, hane, has, hab⟩
  subst hsEq
  unfold pat1
  simp only [List.append_assoc, List.cons_append]
  rw [pfxMatch_complete, Option.some_bind]
  apply findSome?_isSome_of _ _
    (attachChars ++ (g.realm ++ '/' :: (g.rid ++ '/' :: (g.archive ++ rest))))
  · exact starZip_complete k _
  · rw [stripPre_append, Option.some_bind, opt_map_isSome]
    have hre : g.realm ++ '/' :: (g.rid ++ '/' :: (g.archive ++ rest)) =
        g.realm ++ '/' :: g.rid ++ '/' :: g.archive ++ rest := by
      simp [List.cons_append, List.append_assoc]
    rw [hre]
    exact tail1_complete _ _ _ _ _ hrne hrs hrid hane has hab hbang

theorem pat2Body_cons (fmt : Bool) (s4 : List Char) :
    pat2Body fmt ('/' :: s4) =
      words2.findSome? (fun w =>
        (stripPre (w ++ ['/']) s4).bind (fun s5 =>
          (rid2 s5).map (fun t =>
            { fmt := fmt, realm := w, rid := t.1,
              inner := t.2.1, rev := t.2.2 }))) := by
  unfold pat2Body
  split
  · next s4x heq2 =>
    cases heq2
    rfl
  · next hno => exact absurd rfl (hno s4)

theorem pat2_sound (s : List Char) (g : G2) (h : pat2 s = some g) :
    G2Shape s g := by
  unfold pat2 at h
  rcases Option.bind_eq_some.mp h with ⟨fs, hpfx, hrest⟩
  rcases findSome?_ex _ _ _ hrest with ⟨s3, hmem, hf3⟩
  unfold pat2Body at hf3
  split at hf3
  · next s4 =>
    rcases findSome?_ex _ _ _ hf3 with ⟨w, hw, hfw⟩
    rcases Option.bind_eq_some.mp hfw with ⟨s5, hstrip, hrid2⟩
    cases ht : rid2 s5 with
    | none => rw [ht] at hrid2; simp at hrid2
    | some t =>
      rw [ht] at hrid2
      simp at hrid2
      rcases starZip_sound _ _ hmem with ⟨k, hk⟩
      have hs4 := stripPre_some _ _ _ hstrip
      rcases rid2_sound _ _ ht with ⟨hidne, hidb, rest, hs5, hbang⟩
      have hsEq := pfxMatch_sound _ _ hpfx
      subst hrid2
      refine ⟨⟨k, rest, ?_, ?_⟩, hw, hidne, hidb⟩
      · show s = '/' :: optRaw fs.1 ++ zipWord ++ zipRep k ++ '/' :: w ++
          '/' :: t.1 ++ rest
        rw [hsEq, hk, hs4, hs5]
        simp [List.cons_append, List.append_assoc]
      · exact hbang
  · exact absurd hf3 (by simp)

theorem pat2_complete (s : List Char) (g : G2) (h : G2Shape s g) :
    (pat2 s).isSome := by
  rcases h with ⟨⟨k, rest, hsEq, hbang⟩, hw, hidne, hidb⟩
  subst hsEq
  unfold pat2
  simp only [List.append_assoc, List.cons_append]
  rw [pfxMatch_complete, Option.some_bind]
  apply findSome?_isSome_of _ _ ('/' :: (g.realm ++ '/' :: (g.rid ++ rest)))
  · exact starZip_complete k _
  · rw [pat2Body_cons]
    apply findSome?_isSome_of _ _ g.realm
    · exact hw
    · have hsplit : g.realm ++ '/' :: (g.rid ++ rest) =
          (g.realm ++ ['/']) ++ (g.rid ++ rest) := by
        simp
      rw [hsplit, stripPre_append, Option.some_bind, opt_map_isSome]
      exact rid2_complete _ _ _ hidne hidb hbang

/-! ## Claim C1 -/

/-- C1: the URL-pattern matcher decodes composite paths.  Whenever
`match_request` accepts a `path_info` (returning the truthy argument
dict), the path decomposes per one of the two advertised patterns —
`/(raw-)?zip(?:/zip)*/attachment/<realm>/<id>/<archive>` or
`/(raw-)?zip(?:/zip)*/(export|browser|file)/<path>`, each optionally
followed by `!/<inner-path>` and `@<rev>` — and the stored arguments are
exactly those of the claim: the `raw-` flag in `format`, the
`!/<inner-path>` suffix (or `None`) in `path`,
`Resource(realm, id).child('attachment', archive)` in `attachment`
(resp. `Resource(realm, path)` in `browser`), and the revision with its
leading `@` removed in `rev` (absent when no revision group matched).
Whenever `match_request` rejects (the falsy `None`), the path matches
neither pattern. -/
theorem c1_match_request_spec (s : String) :
    (∀ a, match_request s = some a →
        (∃ g, G1Shape s.toList g ∧ a = argsOfG1 g) ∨
        (∃ g, G2Shape s.toList g ∧ a = argsOfG2 g)) ∧
    (match_request s = none →
        (∀ g, ¬ G1Shape s.toList g) ∧ (∀ g, ¬ G2Shape s.toList g)) := by
  constructor
  · intro a ha
    unfold match_request at ha
    cases hp1 : pat1 s.toList with
    | some g =>
      rw [hp1] at ha
      simp at ha
      left
      exact ⟨g, pat1_sound _ _ hp1, ha.symm⟩
    | none =>
      rw [hp1] at ha
      cases hp2 : pat2 s.toList with
      | some g =>
        rw [hp2] at ha
        simp at ha
        right
        exact ⟨g, pat2_sound _ _ hp2, ha.symm⟩
      | none =>
        rw [hp2] at ha
        simp at ha
  · intro hnone
    unfold match_request at hnone
    constructor
    · intro g hshape
      have hsome := pat1_complete _ _ hshape
      cases hp1 : pat1 s.toList with
      | some gg => rw [hp1] at hnone; simp at hnone
      | none => rw [hp1] at hsome; simp at hsome
    · intro g hshape
      have hsome := pat2_complete _ _ hshape
      cases hp1 : pat1 s.toList with
      | some gg => rw [hp1] at hnone; simp at hnone
      | none =>
        rw [hp1] at hnone
        cases hp2 : pat2 s.toList with
        | some gg => rw [hp2] at hnone; simp at hnone
        | none => rw [hp2] at hsome; simp at hsome

/-- A concrete instantiation of `c1_match_request_spec`: an accepted
attachment-pattern path decomposes with the claimed stored arguments. -/
theorem c1_match_request_spec_witness :
    (∃ g, G1Shape "/raw-zip/attachment/ticket/123/a.zip!/inner/f.txt".toList g ∧
        ({ format := some "raw-", path := some "!/inner/f.txt",
           attachment := some ⟨"attachment", "a.zip", none, [⟨"ticket", "123", none⟩]⟩,
           browser := none, rev := none } : Args) = argsOfG1 g) ∨
    (∃ g, G2Shape "/raw-zip/attachment/ticket/123/a.zip!/inner/f.txt".toList g ∧
        ({ format := some "raw-", path := some "!/inner/f.txt",
           attachment := some ⟨"attachment", "a.zip", none, [⟨"ticket", "123", none⟩]⟩,
           browser := none, rev := none } : Args) = argsOfG2 g) :=
  (c1_match_request_spec "/raw-zip/attachment/ticket/123/a.zip!/inner/f.txt").1
    _ (by decide)

/-! ## The traversal loop -/

theorem zipDescend_step (name : String) (f : FileData) (e : String) (rest : List String) :
    zipDescend name f e rest =
      match zipEntries f with
      | none => .error .badZipFile
      | some es =>
        match zfind e es with
        | none => .error (zipNotFound name)
        | some i =>
          match rest with
          | [] => .ok (i.2.2, es, e)
          | e2 :: rest2 => zipDescend name i.2.2 e2 rest2 := by
  rw [zipDescend]
  cases hes : zipEntries f with
  | none => rfl
  | some es =>
    cases hzf : zfind e es with
    | none => simp [zipOpenEntry, hzf]
    | some i => simp [zipOpenEntry, hzf]

theorem zipDescend_error_cases :
    ∀ (rest : List String) (f : FileData) (e name : String) (err : PyErr),
      zipDescend name f e rest = .error err →
      err = .badZipFile ∨ err = zipNotFound name := by
  intro rest
  induction rest with
  | nil =>
    intro f e name err h
    rw [zipDescend_step] at h
    cases hes : zipEntries f with
    | none => simp only [hes] at h; simp at h; exact Or.inl h.symm
    | some es =>
      simp only [hes] at h
      cases hzf : zfind e es with
      | none => simp only [hzf] at h; simp at h; exact Or.inr h.symm
      | some i => simp only [hzf] at h; simp at h
  | cons e2 rest2 ih =>
    intro f e name err h
    rw [zipDescend_step] at h
    cases hes : zipEntries f with
    | none => simp only [hes] at h; simp at h; exact Or.inl h.symm
    | some es =>
      simp only [hes] at h
      cases hzf : zfind e es with
      | none => simp only [hzf] at h; simp at h; exact Or.inr h.symm
      | some i => simp only [hzf] at h; exact ih _ _ _ _ h

theorem zipDescend_ne_keyError (name : String) (f : FileData) (e : String)
    (rest : List String) (err : PyErr) (k : String)
    (hdes : zipDescend name f e rest = .error err) : err ≠ .keyError k := by
  intro hk
  rcases zipDescend_error_cases _ _ _ _ _ hdes with hc | hc <;>
    simp [hk, zipNotFound] at hc

theorem zipDescend_missing (rest : List String) (f : FileData) (e name : String)
    (es : List ZEntry) (hes : zipEntries f = some es) (hfind : zfind e es = none) :
    zipDescend name f e rest = .error (zipNotFound name) := by
  rw [zipDescend_step]
  simp only [hes, hfind]

theorem zipDescend_ok :
    ∀ (rest : List String) (f : FileData) (e name : String) (v : FileData)
      (lz : List ZEntry) (le : String),
      zipDescend name f e rest = .ok (v, lz, le) →
      followPath f (e :: rest) = some v ∧ le = rest.getLastD e ∧
        ∃ sz dt, zfind le lz = some (sz, dt, v) := by
  intro rest
  induction rest with
  | nil =>
    intro f e name v lz le h
    rw [zipDescend_step] at h
    cases hes : zipEntries f with
    | none => simp only [hes] at h; simp at h
    | some es =>
      simp only [hes] at h
      cases hzf : zfind e es with
      | none => simp only [hzf] at h; simp at h
      | some i =>
        simp only [hzf] at h
        simp at h
        rcases h with ⟨hv, hlz, hle⟩
        refine ⟨?_, by simp [← hle], i.1, i.2.1, ?_⟩
        · simp [followPath, hes, hzf, hv]
        · rw [← hle, ← hlz, hzf, ← hv]
  | cons e2 rest2 ih =>
    intro f e name v lz le h
    rw [zipDescend_step] at h
    cases hes : zipEntries f with
    | none => simp only [hes] at h; simp at h
    | some es =>
      simp only [hes] at h
      cases hzf : zfind e es with
      | none => simp only [hzf] at h; simp at h
      | some i =>
        simp only [hzf] at h
        rcases ih _ _ name _ _ _ h with ⟨hfp, hle, sz, dt, hzfle⟩
        refine ⟨?_, by rw [List.getLastD_cons]; exact hle, sz, dt, hzfle⟩
        simp [followPath, hes, hzf]
        exact hfp

theorem followPath_zipDescend :
    ∀ (rest : List String) (f : FileData) (e name : String) (v : FileData),
      followPath f (e :: rest) = some v →
      ∃ lz le, zipDescend name f e rest = .ok (v, lz, le) := by
  intro rest
  induction rest with
  | nil =>
    intro f e name v h
    unfold followPath at h
    cases hes : zipEntries f with
    | none => simp only [hes] at h; simp at h
    | some es =>
      simp only [hes] at h
      cases hzf : zfind e es with
      | none => simp only [hzf] at h; simp at h
      | some i =>
        simp only [hzf] at h
        simp [followPath] at h
        refine ⟨es, e, ?_⟩
        rw [zipDescend_step]
        simp only [hes, hzf, h]
  | cons e2 rest2 ih =>
    intro f e name v h
    unfold followPath at h
    cases hes : zipEntries f with
    | none => simp only [hes] at h; simp at h
    | some es =>
      simp only [hes] at h
      cases hzf : zfind e es with
      | none => simp only [hzf] at h; simp at h
      | some i =>
        simp only [hzf] at h
        rcases ih _ _ name _ h with ⟨lz, le, hdes⟩
        refine ⟨lz, le, ?_⟩
        rw [zipDescend_step]
        simp only [hes, hzf]
        exact hdes

/-! ## No `KeyError` escapes `process_request` -/

theorem stage4_ne_keyError (env : Env) (req : Req) (r : Resource)
    (a : Option AttObjM) (rn : Option String) (rp : Option String)
    (nd : Option Node) (nm : String) (fo : FileData)
    (ll : Option (List ZEntry × String)) (k : String) :
    stage4 env req r a rn rp nd nm fo ll ≠ .exn (.keyError k) := by
  intro h
  simp only [stage4, rawResponse] at h
  repeat' split at h
  all_goals simp_all [zipNotFound]

theorem stage2_ne_keyError (env : Env) (req : Req) (r : Resource)
    (a : Option AttObjM) (rn : Option String) (rp : Option String)
    (nd : Option Node) (f0 : FileData) (k : String) :
    stage2 env req r a rn rp nd f0 ≠ .exn (.keyError k) := by
  intro h
  simp only [stage2] at h
  repeat' split at h
  all_goals
    first
    | exact stage4_ne_keyError _ _ _ _ _ _ _ _ _ _ _ h
    | exact absurd (by simpa using h)
        (zipDescend_ne_keyError _ _ _ _ _ k (by assumption))
    | (simp_all; done)

theorem processRequest_ne_keyError (env : Env) (req : Req) (k : String) :
    processRequest env req ≠ .exn (.keyError k) := by
  intro h
  simp only [processRequest] at h
  repeat' split at h
  all_goals
    first
    | exact stage2_ne_keyError _ _ _ _ _ _ _ _ _ h
    | (simp_all; done)

/-! ## Evaluation lemmas for `process_request` on the live paths -/

theorem run_attachment (env : Env) (req : Req) (aRes : Resource) (att : AttObjM)
    (f : FileData) (p : String)
    (hA : req.args.attachment = some aRes) (hx : req.xhr = false)
    (hp : req.args.path = some p) (hpne : p ≠ "")
    (hperm : env.permAttachmentView aRes = true)
    (hopen : env.openAttachment aRes = .ok (att, f)) :
    processRequest env req = stage2 env req aRes (some att) none none none f := by
  simp [processRequest, hA, hx, hp, hpne, hperm, hopen, pyTruthy]

theorem run_stage2_loop_ok (env : Env) (req : Req) (aRes : Resource)
    (att : AttObjM) (f0 : FileData) (p e : String) (rest : List String)
    (fo : FileData) (lz : List ZEntry) (le : String)
    (hp : req.args.path = some p) (hname : pyDrop2 p ≠ "")
    (hseg : segmentsOf (pyDrop2 p) = e :: rest)
    (hdesc : zipDescend (pyDrop2 p) f0 e rest = .ok (fo, lz, le)) :
    stage2 env req aRes (some att) none none none f0 =
      stage4 env req aRes (some att) none none none (pyDrop2 p) fo (some (lz, le)) := by
  simp [stage2, hp, hname, hseg, hdesc]

theorem run_stage2_loop_err (env : Env) (req : Req) (aRes : Resource)
    (att : AttObjM) (f0 : FileData) (p e : String) (rest : List String)
    (err : PyErr)
    (hp : req.args.path = some p) (hname : pyDrop2 p ≠ "")
    (hseg : segmentsOf (pyDrop2 p) = e :: rest)
    (hdesc : zipDescend (pyDrop2 p) f0 e rest = .error err) :
    stage2 env req aRes (some att) none none none f0 = .exn err := by
  simp [stage2, hp, hname, hseg, hdesc]

theorem run_stage4_notfound (env : Env) (req : Req) (aRes : Resource)
    (att : AttObjM) (nm : String) (fo : FileData) (lz : List ZEntry) (le : String)
    (hx : req.xhr = false) (hfind : zfind le lz = none) :
    stage4 env req aRes (some att) none none none nm fo (some (lz, le)) =
      .exn (zipNotFound nm) := by
  simp [stage4, hx, hfind]

theorem run_stage4_raw (env : Env) (req : Req) (aRes : Resource)
    (att : AttObjM) (nm : String) (fo : FileData) (lz : List ZEntry) (le : String)
    (sz : Nat) (dt : ZDate) (dat : FileData)
    (hx : req.xhr = false) (hfind : zfind le lz = some (sz, dt, dat))
    (hfmt : req.args.format = some "raw-") :
    stage4 env req aRes (some att) none none none nm fo (some (lz, le)) =
      rawResponse env req fo sz dt (sniffMime env nm fo) := by
  simp [stage4, hx, hfind, hfmt]

/-! ## Claims C4, C5, C6, C8, C9 -/

/-- C4: a request carrying neither an `attachment` nor a `browser`
resource in its argument dict, with a non-empty `path` value or the
`XMLHttpRequest` header, makes `process_request` raise
`TracError('Not Implemented')` (lines 184-185). -/
theorem c4_not_implemented (env : Env) (req : Req)
    (hA : req.args.attachment = none) (hB : req.args.browser = none)
    (hcond : pyTruthy req.args.path = true ∨ req.xhr = true) :
    processRequest env req = .exn (.tracError "Not Implemented") := by
  rcases hcond with hc | hc <;> simp [processRequest, hA, hB, hc]

/-- A concrete instantiation of `c4_not_implemented`. -/
theorem c4_not_implemented_witness :
    processRequest sampleEnv ⟨⟨none, some "x", none, none, none⟩, false, none⟩ =
      .exn (.tracError "Not Implemented") :=
  c4_not_implemented _ _ rfl rfl (Or.inl (by decide))

/-- C5: on the browser branch, a resolved repository name without a
loadable repository object (lines 174-176), and an invalid changeset
reported by `get_existing_node` (lines 177-182), both surface as the
framework's `ResourceNotFound`. -/
theorem c5_browser_not_found (env : Env) (req : Req) (bRes : Resource)
    (hA : req.args.attachment = none) (hB : req.args.browser = some bRes)
    (hcond : pyTruthy req.args.path = true ∨ req.xhr = true)
    (hperm : env.permFileView bRes = true) :
    (∀ rn pth, env.repoByPath bRes.id = (rn, none, pth) → rn ≠ "" →
      processRequest env req =
        .exn (.resourceNotFound ("Repository " ++ rn ++ " not found") "")) ∧
    (∀ rn rp pth msg, env.repoByPath bRes.id = (rn, some rp, pth) →
      env.getExistingNode rp pth (revNorm req.args.rev) =
        .error (.noSuchChangeset msg) →
      processRequest env req =
        .exn (.resourceNotFound msg "Invalid changeset number")) := by
  constructor
  · intro rn pth hrepo hrn
    rcases hcond with hc | hc <;>
      simp [processRequest, hA, hB, hc, hperm, hrepo, hrn]
  · intro rn rp pth msg hrepo hnode
    rcases hcond with hc | hc <;>
      simp [processRequest, hA, hB, hc, hperm, hrepo, hnode]

/-- A concrete instantiation of `c5_browser_not_found` for both error
paths. -/
theorem c5_browser_not_found_witness :
    processRequest sampleEnvNoRepo
        ⟨⟨none, some "!/f", none, some browRes, none⟩, false, none⟩ =
      .exn (.resourceNotFound "Repository badrepo not found" "") ∧
    processRequest sampleEnvBadChangeset
        ⟨⟨none, some "!/f", none, some browRes, none⟩, false, none⟩ =
      .exn (.resourceNotFound "No changeset 99 in the repository"
        "Invalid changeset number") := by
  constructor
  · have h := (c5_browser_not_found sampleEnvNoRepo
      ⟨⟨none, some "!/f", none, some browRes, none⟩, false, none⟩ browRes
      rfl rfl (Or.inl (by decide)) rfl).1 "badrepo" "x" rfl (by decide)
    simpa using h
  · exact (c5_browser_not_found sampleEnvBadChangeset
      ⟨⟨none, some "!/f", none, some browRes, none⟩, false, none⟩ browRes
      rfl rfl (Or.inl (by decide)) rfl).2 "repo1" sampleRepos "trunk/a.zip"
      "No changeset 99 in the repository" rfl rfl

/-- C6: the plugin's four roles. `get_resource_realms` yields exactly
`zip` and `raw-zip`; `get_quality_ratio` returns the positive ratio 8
for the two ZIP mimetypes and 0 for every other mimetype;
`get_link_resolvers` yields exactly `raw-zip` and `zip`, both bound to
`_format_link`; and the request-handler pair is implemented, every
accepted request carrying exactly one of the `attachment`/`browser`
resources for `process_request`. -/
theorem c6_roles :
    get_resource_realms = ["zip", "raw-zip"] ∧
    get_quality_ratio "application/zip" = 8 ∧
    get_quality_ratio "application/x-zip-compressed" = 8 ∧
    (∀ m, m ≠ "application/zip" → m ≠ "application/x-zip-compressed" →
      get_quality_ratio m = 0) ∧
    get_link_resolvers = [("raw-zip", .formatLink), ("zip", .formatLink)] ∧
    (∀ s a, match_request s = some a →
      (a.attachment.isSome = true ∧ a.browser = none) ∨
      (a.browser.isSome = true ∧ a.attachment = none)) := by
  refine ⟨rfl, by decide, by decide, ?_, rfl, ?_⟩
  · intro m h1 h2
    simp [get_quality_ratio, h1, h2]
  · intro s a ha
    unfold match_request at ha
    cases hp1 : pat1 s.toList with
    | some g =>
      rw [hp1] at ha
      simp at ha
      left
      simp [← ha, argsOfG1]
    | none =>
      rw [hp1] at ha
      cases hp2 : pat2 s.toList with
      | some g =>
        rw [hp2] at ha
        simp at ha
        right
        simp [← ha, argsOfG2]
      | none => rw [hp2] at ha; simp at ha

/-- A concrete instantiation of `c6_roles` at a non-ZIP mimetype and an
accepted request. -/
theorem c6_roles_witness :
    get_quality_ratio "text/plain" = 0 ∧
    (((argsOfG1 ⟨false, "wiki".toList, "Page".toList, "a.zip".toList, none, none⟩).attachment.isSome = true ∧
        (argsOfG1 ⟨false, "wiki".toList, "Page".toList, "a.zip".toList, none, none⟩).browser = none) ∨
      ((argsOfG1 ⟨false, "wiki".toList, "Page".toList, "a.zip".toList, none, none⟩).browser.isSome = true ∧
        (argsOfG1 ⟨false, "wiki".toList, "Page".toList, "a.zip".toList, none, none⟩).attachment = none)) :=
  ⟨c6_roles.2.2.2.1 "text/plain" (by decide) (by decide),
   c6_roles.2.2.2.2.2 "/zip/attachment/wiki/Page/a.zip" _ (by decide)⟩

/-- C8: `get_resource_url` returns `None` for a parentless resource; with
a parent it calls the `href` builder under the `zip` prefix, except that
`format='raw'` switches the prefix to `raw-zip` and removes the `format`
key from the forwarded keyword arguments (lines 70-80). -/
theorem c8_get_resource_url (env : Env) (res : Resource)
    (kwargs : List (String × String)) :
    (res.parent = none → get_resource_url env res kwargs = none) ∧
    (∀ par, res.parent = some par →
      get_resource_url env res kwargs = some
        { pre := if kwGet kwargs "format" = some "raw" then "raw-zip" else "zip"
        , pathArg := env.unquote (env.resourceHref (parentAtVersionNone par)) ++
            "!/" ++ res.id
        , kwargs := if kwGet kwargs "format" = some "raw" then
            kwPop kwargs "format" else kwargs }) := by
  constructor
  · intro h
    simp [get_resource_url, h]
  · intro par h
    simp [get_resource_url, h]

/-- A concrete instantiation of `c8_get_resource_url` for both the
parentless case and the `format='raw'` case. -/
theorem c8_get_resource_url_witness :
    get_resource_url sampleEnv (Resource.base "zip" "x") [] = none ∧
    get_resource_url sampleEnv ((Resource.base "wiki" "Page").child "zip" "inner")
        [("format", "raw")] =
      some { pre := "raw-zip", pathArg := "/attachment/Page!/inner", kwargs := [] } := by
  constructor
  · exact (c8_get_resource_url sampleEnv _ _).1 rfl
  · have h := (c8_get_resource_url sampleEnv
      ((Resource.base "wiki" "Page").child "zip" "inner") [("format", "raw")]).2
      ⟨"wiki", "Page", none, []⟩ rfl
    simpa [sampleEnv, kwGet, kwPop, parentAtVersionNone, Resource.base,
      Resource.child] using h

/-- C9: `resource_exists` turns a `ResourceNotFound` from instantiating
the parent attachment into `False`, and otherwise reports whether the
attachment's file path exists on disk (lines 97-102). -/
theorem c9_resource_exists (env : Env) (res : Resource) :
    (env.mkAttachment res.parent = .error .resourceNotFound →
      resource_exists env res = .ok false) ∧
    (∀ pth, env.mkAttachment res.parent = .ok pth →
      resource_exists env res = .ok (env.pathExists pth)) := by
  constructor
  · intro h
    simp [resource_exists, h]
  · intro pth h
    simp [resource_exists, h]

/-- A concrete instantiation of `c9_resource_exists` for both outcomes. -/
theorem c9_resource_exists_witness :
    resource_exists sampleEnvRNF attRes = .ok false ∧
    resource_exists sampleEnv attRes = .ok true := by
  constructor
  · exact (c9_resource_exists _ _).1 rfl
  · have h := (c9_resource_exists sampleEnv attRes).2 "/var/trac/a.zip" rfl
    simpa [sampleEnv] using h

/-! ## Claims C2, C3, C7, C10 -/

/-- C2: the nested-archive traversal.  The first conjunct documents the
defect: a browser request with a non-empty inner path crashes with
`AttributeError` at line 190 (`attachment.resource.id` on `None`),
before the traversal runs.  The remaining conjuncts verify the claim on
the attachment branch: a successful run of the loop of lines 192-202
computes exactly the sequential-delegation lookup `followPath` (each
segment opened from the ZipFile wrapping the previous file object), the
last opened element is the last segment, the loop succeeds exactly when
the nested lookup does, and the raw response then streams exactly that
single inner entry, at any nesting depth. -/
theorem c2_sequential_delegation :
    (processRequest sampleEnv
        ⟨⟨none, some "!/f.txt", none, some browRes, none⟩, false, none⟩ =
      .exn (.attributeError "NoneType object has no attribute resource")) ∧
    (∀ (rest : List String) (f : FileData) (e name : String) (v : FileData)
        (lz : List ZEntry) (le : String),
      zipDescend name f e rest = .ok (v, lz, le) →
      followPath f (e :: rest) = some v ∧ le = rest.getLastD e) ∧
    (∀ (rest : List String) (f : FileData) (e name : String) (v : FileData),
      followPath f (e :: rest) = some v →
      ∃ lz le, zipDescend name f e rest = .ok (v, lz, le)) ∧
    (∀ (env : Env) (req : Req) (aRes : Resource) (att : AttObjM) (f : FileData)
        (p e : String) (rest : List String) (v : FileData) (lz : List ZEntry)
        (le : String) (sz : Nat) (dt : ZDate) (dat : FileData),
      req.args.attachment = some aRes → req.xhr = false →
      req.args.path = some p → p ≠ "" →
      env.permAttachmentView aRes = true →
      env.openAttachment aRes = .ok (att, f) →
      pyDrop2 p ≠ "" → segmentsOf (pyDrop2 p) = e :: rest →
      zipDescend (pyDrop2 p) f e rest = .ok (v, lz, le) →
      zfind le lz = some (sz, dt, dat) →
      req.args.format = some "raw-" →
      req.ifModifiedSince = none →
      ∃ resp, processRequest env req = .done resp ∧ resp.body = some v) := by
  refine ⟨rfl, ?_, ?_, ?_⟩
  · intro rest f e name v lz le h
    rcases zipDescend_ok rest f e name v lz le h with ⟨h1, h2, _⟩
    exact ⟨h1, h2⟩
  · exact fun rest f e name v h => followPath_zipDescend rest f e name v h
  · intro env req aRes att f p e rest v lz le sz dt dat
      hA hx hp hpne hperm hopen hname hseg hdesc hfind hfmt hims
    rw [run_attachment env req aRes att f p hA hx hp hpne hperm hopen,
      run_stage2_loop_ok env req aRes att f p e rest v lz le hp hname hseg hdesc,
      run_stage4_raw env req aRes att (pyDrop2 p) v lz le sz dt dat hx hfind hfmt]
    simp only [rawResponse, hims]
    exact ⟨_, rfl, rfl⟩

/-- A concrete instantiation of `c2_sequential_delegation`: a raw
attachment request for a doubly nested member streams that member. -/
theorem c2_sequential_delegation_witness :
    ∃ resp, processRequest sampleEnv
        ⟨⟨some "raw-", some "!/n.zip!/deep.bin", some attRes, none, none⟩,
          false, none⟩ = .done resp ∧ resp.body = some (FileData.bytes [1, 2]) :=
  c2_sequential_delegation.2.2.2 sampleEnv
    ⟨⟨some "raw-", some "!/n.zip!/deep.bin", some attRes, none, none⟩, false, none⟩
    attRes sampleAtt sampleZip "!/n.zip!/deep.bin" "n.zip" ["deep.bin"]
    (.bytes [1, 2]) [("deep.bin", 2, (2022, 2, 2, 2, 2, 2), .bytes [1, 2])]
    "deep.bin" 2 (2022, 2, 2, 2, 2, 2) (.bytes [1, 2])
    rfl rfl rfl (by decide) rfl rfl (by decide) rfl rfl rfl rfl rfl

/-- C3: missing ZIP members surface as `ResourceNotFound`, never as a
raw `KeyError`: no run of `process_request` can return a `KeyError`; a
failed traversal run is either `BadZipFile` (non-archive data, uncaught)
or the `ResourceNotFound` with detail `Invalid filename in Zip`; a
segment absent from the enclosing archive produces exactly that
`ResourceNotFound` (lines 196-202); `process_request` re-raises the
traversal's exception unchanged; and a `getinfo` miss after the loop
(lines 229-236) also produces it. -/
theorem c3_keyerror_becomes_not_found :
    (∀ (env : Env) (req : Req) (k : String),
      processRequest env req ≠ .exn (.keyError k)) ∧
    (∀ (name f e rest err) (_ : zipDescend name f e rest = Except.error err),
      err = PyErr.badZipFile ∨ err = zipNotFound name) ∧
    (∀ (rest : List String) (f : FileData) (e name : String) (es : List ZEntry),
      zipEntries f = some es → zfind e es = none →
      zipDescend name f e rest = .error (zipNotFound name)) ∧
    (∀ (env : Env) (req : Req) (aRes : Resource) (att : AttObjM) (f : FileData)
        (p e : String) (rest : List String) (err : PyErr),
      req.args.attachment = some aRes → req.xhr = false →
      req.args.path = some p → p ≠ "" →
      env.permAttachmentView aRes = true →
      env.openAttachment aRes = .ok (att, f) →
      pyDrop2 p ≠ "" → segmentsOf (pyDrop2 p) = e :: rest →
      zipDescend (pyDrop2 p) f e rest = .error err →
      processRequest env req = .exn err) ∧
    (∀ (env : Env) (req : Req) (aRes : Resource) (att : AttObjM) (nm : String)
        (fo : FileData) (lz : List ZEntry) (le : String),
      req.xhr = false → zfind le lz = none →
      stage4 env req aRes (some att) none none none nm fo (some (lz, le)) =
        .exn (zipNotFound nm)) := by
  refine ⟨processRequest_ne_keyError, ?_, zipDescend_missing, ?_, run_stage4_notfound⟩
  · exact fun name f e rest err h => zipDescend_error_cases rest f e name err h
  · intro env req aRes att f p e rest err hA hx hp hpne hperm hopen hname hseg hdesc
    rw [run_attachment env req aRes att f p hA hx hp hpne hperm hopen,
      run_stage2_loop_err env req aRes att f p e rest err hp hname hseg hdesc]

/-- A concrete instantiation of `c3_keyerror_becomes_not_found`: a
request naming a member absent from the archive gets the framework's
`ResourceNotFound` with detail `Invalid filename in Zip`. -/
theorem c3_keyerror_becomes_not_found_witness :
    processRequest sampleEnv
        ⟨⟨some "raw-", some "!/nope", some attRes, none, none⟩, false, none⟩ =
      .exn (.resourceNotFound "Attchment nope does not exist."
        "Invalid filename in Zip") :=
  c3_keyerror_becomes_not_found.2.2.2.1 sampleEnv
    ⟨⟨some "raw-", some "!/nope", some attRes, none, none⟩, false, none⟩
    attRes sampleAtt sampleZip "!/nope" "nope" [] (zipNotFound "nope")
    rfl rfl rfl (by decide) rfl rfl (by decide) rfl rfl

/-- C7: the raw-format response.  The first conjunct documents the
defect: a browser request in raw format crashes with `AttributeError`
at line 190 before any response is sent.  The second verifies the
response semantics on the attachment branch (lines 319-340): with
`If-Modified-Since` equal to the member's HTTP date, status 304 with
`Content-Length: 0`; otherwise status 200 with
`Content-Disposition: attachment` exactly when `render_unsafe_content`
is off, the sniffed `Content-Type` when one was determined,
`Content-Length` equal to the member's `file_size`, `Last-Modified`
equal to that HTTP date, and the member streamed as the body; both
paths terminate the request (`RequestDone`). -/
theorem c7_raw_response_headers :
    (processRequest sampleEnv
        ⟨⟨some "raw-", some "!/f.txt", none, some browRes, none⟩, false, none⟩ =
      .exn (.attributeError "NoneType object has no attribute resource")) ∧
    (∀ (env : Env) (req : Req) (aRes : Resource) (att : AttObjM) (f : FileData)
        (p e : String) (rest : List String) (v : FileData) (lz : List ZEntry)
        (le : String) (sz : Nat) (dt : ZDate) (dat : FileData),
      req.args.attachment = some aRes → req.xhr = false →
      req.args.path = some p → p ≠ "" →
      env.permAttachmentView aRes = true →
      env.openAttachment aRes = .ok (att, f) →
      pyDrop2 p ≠ "" → segmentsOf (pyDrop2 p) = e :: rest →
      zipDescend (pyDrop2 p) f e rest = .ok (v, lz, le) →
      zfind le lz = some (sz, dt, dat) →
      req.args.format = some "raw-" →
      (req.ifModifiedSince = some (http_date dt) →
        processRequest env req =
          .done ⟨304, [("Content-Length", "0")], none⟩) ∧
      (req.ifModifiedSince ≠ some (http_date dt) →
        processRequest env req = .done ⟨200,
          (if env.renderUnsafeContent then []
            else [("Content-Disposition", "attachment")]) ++
          (match sniffMime env (pyDrop2 p) v with
            | some m => if m != "" then [("Content-Type", m)] else []
            | none => []) ++
          [("Content-Length", toString sz), ("Last-Modified", http_date dt)],
          some v⟩)) := by
  refine ⟨rfl, ?_⟩
  intro env req aRes att f p e rest v lz le sz dt dat
    hA hx hp hpne hperm hopen hname hseg hdesc hfind hfmt
  rw [run_attachment env req aRes att f p hA hx hp hpne hperm hopen,
    run_stage2_loop_ok env req aRes att f p e rest v lz le hp hname hseg hdesc,
    run_stage4_raw env req aRes att (pyDrop2 p) v lz le sz dt dat hx hfind hfmt]
  constructor
  · intro h
    simp [rawResponse, h]
  · intro h
    simp only [rawResponse, if_neg h]

/-- A concrete instantiation of `c7_raw_response_headers`: the 304 path
at a matching `If-Modified-Since`. -/
theorem c7_raw_response_headers_witness :
    processRequest sampleEnv
        ⟨⟨some "raw-", some "!/f.txt", some attRes, none, none⟩, false,
          some (http_date (2020, 1, 2, 3, 4, 5))⟩ =
      .done ⟨304, [("Content-Length", "0")], none⟩ :=
  (c7_raw_response_headers.2 sampleEnv
    ⟨⟨some "raw-", some "!/f.txt", some attRes, none, none⟩, false,
      some (http_date (2020, 1, 2, 3, 4, 5))⟩
    attRes sampleAtt sampleZip "!/f.txt" "f.txt" [] sampleInner sampleEntries
    "f.txt" 3 (2020, 1, 2, 3, 4, 5) sampleInner
    rfl rfl rfl (by decide) rfl rfl (by decide) rfl rfl rfl rfl).1 rfl

/-- C10: the XHR directory listing never materialises.  The first two
conjuncts document the defect: an attachment XHR request raises
`NameError` at line 211 (`reponame` is only assigned on the browser
branch) and a browser XHR request raises `AttributeError` at line 190,
so no XHR request ever returns `dir_entries.html`.  The third conjunct
verifies the claim's filtering property on the very comprehension of
lines 213-221: its elements are exactly the builds from the archive
members whose filename does not end in `/`, with `content_length` the
member's `file_size`. -/
theorem c10_xhr_listing :
    (processRequest sampleEnv ⟨⟨none, none, some attRes, none, none⟩, true, none⟩ =
      .exn (.nameError "reponame")) ∧
    (processRequest sampleEnv ⟨⟨none, none, none, some browRes, none⟩, true, none⟩ =
      .exn (.attributeError "NoneType object has no attribute resource")) ∧
    (∀ (es : List ZEntry) (nd : Node) (pth ps : String) (d : DirEntry),
      d ∈ (es.filter (fun ent => !(ent.1.endsWith "/"))).map (fun ent =>
        ({ name := ent.1, kind := nd.kind, contentLength := ent.2.1,
           path := pth ++ ps ++ "!/" ++ ent.1,
           createdRev := nd.createdRev } : DirEntry)) ↔
      ∃ ent, ent ∈ es ∧ ent.1.endsWith "/" = false ∧
        d = { name := ent.1, kind := nd.kind, contentLength := ent.2.1,
              path := pth ++ ps ++ "!/" ++ ent.1,
              createdRev := nd.createdRev }) := by
  refine ⟨rfl, rfl, ?_⟩
  intro es nd pth ps d
  simp only [List.mem_map, List.mem_filter]
  constructor
  · rintro ⟨ent, ⟨hm, hf⟩, rfl⟩
    exact ⟨ent, hm, by simpa using hf, rfl⟩
  · rintro ⟨ent, hm, hf, rfl⟩
    exact ⟨ent, ⟨hm, by simpa using hf⟩, rfl⟩

end ArchiveViewer
